import Mathlib

/-!
Verification development for the rTFPG fault reasoner
(rTFPGModel / SignalIngestor / LogicEngine / PrognosisManager /
RefinementOptimizer).

Shallow embedding conventions:
* C++ `double` values are modelled as `ℚ` (exact rational arithmetic);
  the floating-point literals `1e-9` and `1e-6` become `1/10^9` and `1/10^6`.
* `uint64_t` timestamps are `ℕ`; C++ `int` fields are `ℤ`.
* `std::unordered_map<std::string, NodeState>` is modelled as a total
  function `String → NodeState`; the map's key set is exactly the model's
  node-id set whenever every edge endpoint names an existing node
  (the well-formedness hypothesis carried by the theorems below), so the
  C++ `count`/`find` membership tests are modelled as membership in the
  node-id list.
* Unbounded C++ loops/recursions (Dijkstra, backward propagation, BFS,
  `refine`) take an explicit fuel argument; exhausting fuel yields `none`
  or returns the accumulator, and the theorems quantify over the fuel.
* `+infinity` in `PrognosisResult.ttc` is modelled by `Option ℚ`
  (`none` = `+∞`).
-/

namespace TFPG

/-- Signal entry of the model (rTFPGModel.h). -/
structure Signal where
  id : String
  source_name : String
  type : String
  units : String
  range_min : ℚ
  range_max : ℚ
deriving DecidableEq, Repr

/-- Discrepancy predicate (rTFPGModel.h). -/
structure Predicate where
  signal_ref : String
  op : String
  threshold : ℚ
deriving DecidableEq, Repr

/-- Gate type of a discrepancy (rTFPGModel.h). -/
inductive GateType where
  | OR
  | AND
deriving DecidableEq, Repr

/-- Node kind (rTFPGModel.h). -/
inductive NodeType where
  | FailureMode
  | Discrepancy
deriving DecidableEq, Repr

/-- Graph node (rTFPGModel.h); `criticality_level` defaults to 0. -/
structure Node where
  id : String
  name : String
  type : NodeType
  gate_type : Option GateType
  predicate : Option Predicate
  criticality_level : ℤ
deriving DecidableEq, Repr

/-- Timed edge (rTFPGModel.h); `from` and `to` are Lean keywords, hence
`from_` and `to_`. -/
structure Edge where
  from_ : String
  to_ : String
  time_min_ms : ℤ
  time_max_ms : ℤ
deriving DecidableEq, Repr

/-- The static graph: parallel lists of signals, nodes and edges
(rTFPGModel.h private members). -/
structure rTFPGModel where
  signals : List Signal
  nodes : List Node
  edges : List Edge
deriving DecidableEq, Repr

/-- One sample of the input stream (SignalIngestor.h). -/
structure DataSample where
  timestamp_ms : ℕ
  parameterID : String
  value : ℚ
  is_failure_mode : Bool
deriving DecidableEq, Repr

/-- Activation state of one node (LogicEngine.h), with the header's
default member initializers. -/
structure NodeState where
  is_active : Bool
  robustness : ℚ
  activation_time_ms : ℕ
  trigger_value : ℚ
deriving DecidableEq, Repr

instance : Inhabited NodeState := ⟨⟨false, 0, 0, 0⟩⟩

/-- The ids of the model's nodes; this is the key set of the engine's
`m_node_states` map (populated in the LogicEngine constructor). -/
def nodeIds (model : rTFPGModel) : List String :=
  model.nodes.map (·.id)

/-- `m_node_map` of LogicEngine.findActiveHypotheses / PrognosisManager:
`node_map[node.id] = node` in list order, so a later node with the same id
overwrites an earlier one. -/
def nodeMapAt (model : rTFPGModel) (id : String) : Option Node :=
  model.nodes.foldl (fun acc nd => if nd.id = id then some nd else acc) none

/-- REQ-ENG-03 (LogicEngine.cpp, calculateRobustness): signed margin of a
predicate, normalized by the signal range unless the range is degenerate
(width ≤ 1e-9). -/
def calculateRobustness (predicate : Predicate) (signal_value : ℚ)
    (range_min range_max : ℚ) : ℚ :=
  let raw_val : ℚ :=
    if predicate.op = ">" then signal_value - predicate.threshold
    else if predicate.op = "<" then predicate.threshold - signal_value
    else 0
  let range := range_max - range_min
  if range ≤ 1 / 1000000000 then raw_val
  else raw_val / range

/-! ## Model-document parsing (rTFPGModel.cpp constructor, nodes array) -/

/-- The `predicate` object of a node entry in the model document; every
field is optional because `json::at` throws on a missing key. -/
structure PredicateDoc where
  signal_ref : Option String
  operator : Option String
  threshold : Option ℚ
deriving DecidableEq, Repr

/-- One entry of the model document's `nodes` array.  `id`, `name` and
`type` are taken as present (the claims under study concern
`criticality_level`); the remaining keys are optional. -/
structure NodeDoc where
  id : String
  name : String
  type : String
  gate_type : Option String
  criticality_level : Option ℤ
  predicate : Option PredicateDoc
deriving DecidableEq, Repr

/-- Parsing of one node entry (rTFPGModel.cpp lines 21-55).  A missing
mandatory key (json::at throwing) is modelled by `none`.  Note that the
source reads `criticality_level` only inside the Discrepancy branch: a
FailureMode node keeps the struct default 0. -/
def parseNode (d : NodeDoc) : Option Node :=
  if d.type = "FailureMode" then
    some ⟨d.id, d.name, NodeType.FailureMode, none, none, 0⟩
  else do
    let g ← d.gate_type
    let gate := if g = "OR" then GateType.OR else GateType.AND
    let c ← d.criticality_level
    let pd ← d.predicate
    let sr ← pd.signal_ref
    let op ← pd.operator
    let th ← pd.threshold
    some ⟨d.id, d.name, NodeType.Discrepancy, some gate, some ⟨sr, op, th⟩, c⟩

/-! ## SignalIngestor (SignalIngestor.cpp) -/

/-- The ingestor's registry and buffer (SignalIngestor.h private members). -/
structure SignalIngestor where
  m_parameter_to_internal_id : List (String × ℤ)
  m_internal_id_to_parameter : List String
  m_next_internal_id : ℤ
  m_samples : List DataSample
deriving DecidableEq, Repr

/-- Constructor (SignalIngestor.cpp lines 5-19): registers each
`source_name` of the model document's signal list, skipping duplicates. -/
def mkSignalIngestor (source_names : List String) : SignalIngestor :=
  source_names.foldl
    (fun ing name =>
      if (ing.m_parameter_to_internal_id.map Prod.fst).contains name then ing
      else
        { ing with
          m_parameter_to_internal_id :=
            ing.m_parameter_to_internal_id ++ [(name, ing.m_next_internal_id)]
          m_internal_id_to_parameter := ing.m_internal_id_to_parameter ++ [name]
          m_next_internal_id := ing.m_next_internal_id + 1 })
    ⟨[], [], 0, []⟩

/-- SignalIngestor::getInternalId: registry lookup, -1 when unknown. -/
def getInternalId (ing : SignalIngestor) (parameterID : String) : ℤ :=
  match ing.m_parameter_to_internal_id.find? (fun p => p.1 = parameterID) with
  | some p => p.2
  | none => -1

/-- SignalIngestor::ingest: appends the sample to the buffer (and does
nothing else). -/
def ingest (ing : SignalIngestor) (sample : DataSample) : SignalIngestor :=
  { ing with m_samples := ing.m_samples ++ [sample] }

/-- SignalIngestor::getSamples. -/
def getSamples (ing : SignalIngestor) : List DataSample :=
  ing.m_samples

/-! ## Claim C6: robustness formula -/

/-- C6: for op ">" the robustness is `value − threshold`, for op "<" it is
`threshold − value`, divided by `range_max − range_min` when that width is
strictly greater than 1e-9 and left raw when the width is ≤ 1e-9. -/
theorem robustness_formula (p : Predicate) (v rmin rmax : ℚ) :
    (p.op = ">" →
      calculateRobustness p v rmin rmax =
        if rmax - rmin ≤ 1 / 1000000000 then v - p.threshold
        else (v - p.threshold) / (rmax - rmin)) ∧
    (p.op = "<" →
      calculateRobustness p v rmin rmax =
        if rmax - rmin ≤ 1 / 1000000000 then p.threshold - v
        else (p.threshold - v) / (rmax - rmin)) := by
  constructor
  · intro h
    simp [calculateRobustness, h]
  · intro h
    have hne : p.op ≠ ">" := by
      rw [h]; decide
    simp [calculateRobustness, h, hne]

/-- Witness for C6 at a concrete predicate, value and range. -/
theorem robustness_formula_witness :
    calculateRobustness ⟨"s1", ">", 1⟩ 3 0 2 = 1 := by
  have h := (robustness_formula ⟨"s1", ">", 1⟩ 3 0 2).1 rfl
  rw [h]
  norm_num

/-! ## Claim C4: criticality_level of a parsed FailureMode node -/

/-- C4 (code bug evidence): a FailureMode node entry carrying
`criticality_level = 7` in the document parses to a retained node whose
`criticality_level` is 0 — the source parses `criticality_level` only in
the Discrepancy branch, so the document's value for a FailureMode is
dropped and re-serialization cannot reproduce it. -/
theorem parse_failure_mode_drops_criticality :
    parseNode ⟨"F1", "Pump Motor Burnout", "FailureMode", none, some 7, none⟩ =
      some ⟨"F1", "Pump Motor Burnout", NodeType.FailureMode, none, none, 0⟩ ∧
    (parseNode ⟨"F1", "Pump Motor Burnout", "FailureMode", none, some 7, none⟩).map
      (·.criticality_level) ≠ some 7 := by
  constructor
  · rfl
  · decide

/-! ## Claim C9: ingest does not register new parameter IDs -/

/-- C9 counterexample: after ingesting a sample whose parameterID "X" was
not registered from the construction-time signal list, `getInternalId`
still returns -1 (not a non-negative dense id). -/
theorem ingest_does_not_register_counterexample :
    getInternalId (ingest (mkSignalIngestor ["S"]) ⟨5, "X", 1, false⟩) "X" = -1 ∧
    ¬ (0 ≤ getInternalId (ingest (mkSignalIngestor ["S"]) ⟨5, "X", 1, false⟩) "X") := by
  constructor
  · rfl
  · decide

/-- C9 (amended): `ingest` only appends to the sample buffer and leaves the
parameter-id registry untouched, so every lookup after an ingest returns
exactly what it returned before; ids are assigned only at construction. -/
theorem ingest_preserves_registry (ing : SignalIngestor) (s : DataSample)
    (p : String) :
    getInternalId (ingest ing s) p = getInternalId ing p ∧
    getSamples (ingest ing s) = getSamples ing ++ [s] := by
  constructor
  · rfl
  · rfl

/-! ## Logic Engine: predicate evaluation (LogicEngine.cpp, evaluateSignalTrace)

The engine's `m_node_states` map is modelled as a total function
`String → NodeState`; the constructor initializes every node id to the
default state, and a lookup of any other string yields the default state
exactly as `operator[]` would default-construct it. -/

/-- Node-state map. -/
def States := String → NodeState

/-- Point update of a state map. -/
def updateState (st : States) (id : String) (v : NodeState) : States :=
  fun x => if x = id then v else st x

/-- State map right after the LogicEngine constructor: every slot holds the
default NodeState. -/
def initStates : States := fun _ => ⟨false, 0, 0, 0⟩

/-- Signal resolution for a predicate (LogicEngine.cpp lines 58-68): the
first signal whose id equals the predicate's `signal_ref` supplies
(source name, range_min, range_max); the loop's defaults are
`("", 0, 1)`. -/
def resolveSignal (model : rTFPGModel) (signal_ref : String) : String × ℚ × ℚ :=
  match model.signals.find? (fun sig => sig.id = signal_ref) with
  | some sig => (sig.source_name, sig.range_min, sig.range_max)
  | none => ("", 0, 1)

/-- A sample is a sensor reading iff its parameterID equals some signal's
`source_name` (LogicEngine.cpp lines 46-52). -/
def isSensorReading (model : rTFPGModel) (s : DataSample) : Bool :=
  model.signals.any (fun sig => sig.source_name = s.parameterID)

/-- AND-gate precondition (LogicEngine.cpp lines 80-89): every incoming
edge's source node must be active with activation time ≤ the sample's
timestamp.  `node.gate_type == GateType::AND` on the `std::optional` is
true iff the optional is engaged and equal. -/
def andCondition (model : rTFPGModel) (nd : Node) (st : States) (ts : ℕ) : Bool :=
  if nd.gate_type = some GateType.AND then
    model.edges.all (fun e =>
      if e.to_ = nd.id then
        (st e.from_).is_active && decide ((st e.from_).activation_time_ms ≤ ts)
      else true)
  else true

/-- Effect of one buffered sensor sample on one discrepancy node
(LogicEngine.cpp lines 55-101).  The C++ re-reads
`!node_states[node.id].is_active` after the robustness write; the write
never changes `is_active`, so the test equals `st0.is_active = false`. -/
def sensorNodeStep (model : rTFPGModel) (s : DataSample) (st : States)
    (nd : Node) : States :=
  match nd.type, nd.predicate with
  | NodeType.Discrepancy, some pred =>
    let info := resolveSignal model pred.signal_ref
    if info.1 = s.parameterID then
      let rob := calculateRobustness pred s.value info.2.1 info.2.2
      let st0 := st nd.id
      let st1 :=
        if st0.is_active = false then
          updateState st nd.id { st0 with robustness := rob }
        else st
      if 0 < rob ∧ st0.is_active = false then
        if andCondition model nd st1 s.timestamp_ms then
          updateState st1 nd.id ⟨true, rob, s.timestamp_ms, s.value⟩
        else st1
      else st1
    else st
  | _, _ => st

/-- Fault-target resolution (LogicEngine.cpp lines 105-118): the
parameterID taken as node id when it is a key of the state map (= a model
node id), else the id of the first node whose name matches. -/
def resolveFaultTarget (model : rTFPGModel) (pid : String) : Option String :=
  if (nodeIds model).contains pid then some pid
  else (model.nodes.find? (fun nd => nd.name = pid)).map (·.id)

/-- Fault-injection branch (LogicEngine.cpp lines 103-130): activate the
resolved target when it is inactive and the value is positive; the
robustness field is not written. -/
def faultStep (model : rTFPGModel) (s : DataSample) (st : States) : States :=
  match resolveFaultTarget model s.parameterID with
  | some t =>
    let state := st t
    if state.is_active = false ∧ 0 < s.value then
      updateState st t ⟨true, state.robustness, s.timestamp_ms, s.value⟩
    else st
  | none => st

/-- Processing of one buffered sample (LogicEngine.cpp lines 44-131). -/
def processSample (model : rTFPGModel) (st : States) (s : DataSample) : States :=
  if isSensorReading model s then
    model.nodes.foldl (sensorNodeStep model s) st
  else faultStep model s st

/-- Full replay of the sample buffer in arrival order
(LogicEngine.cpp, evaluateSignalTrace). -/
def evaluateSignalTrace (model : rTFPGModel) (st : States)
    (samples : List DataSample) : States :=
  samples.foldl (processSample model) st

/-- Spec invariants 1-3 as used here: node ids are unique and edge
endpoints name existing nodes.  Under this hypothesis the key set of the
engine's state map stays exactly the node-id set (`operator[]` on
`edge.from` never inserts a ghost key), which justifies modelling the map
as a total function with membership tests on `nodeIds`. -/
def WFModel (model : rTFPGModel) : Prop :=
  (nodeIds model).Nodup ∧
  ∀ e ∈ model.edges, e.from_ ∈ nodeIds model ∧ e.to_ ∈ nodeIds model

instance (model : rTFPGModel) : Decidable (WFModel model) := by
  unfold WFModel
  infer_instance

/-! ## Claim C10: fault-injection samples form a frame -/

/-- The robustness of every slot is untouched by a fault step. -/
theorem faultStep_robustness (model : rTFPGModel) (s : DataSample)
    (st : States) (x : String) :
    ((faultStep model s st) x).robustness = (st x).robustness := by
  unfold faultStep
  cases h : resolveFaultTarget model s.parameterID with
  | none => rfl
  | some t =>
    by_cases hc : (st t).is_active = false ∧ 0 < s.value
    · simp only [hc, if_pos]
      unfold updateState
      by_cases hx : x = t
      · subst hx; simp
      · simp [hx]
    · simp only [hc, if_neg, not_false_eq_true]

/-- C10: a fault-injection sample (parameterID matching no signal's
source_name) never changes any robustness field; it modifies only the
resolved target node and only when that target was inactive with a
strictly positive sample value, setting exactly `is_active`,
`activation_time_ms` and `trigger_value`; and a buffer consisting only of
fault-injection samples leaves every robustness at its initial 0, so a
node activated purely by fault injection reports robustness 0. -/
theorem fault_injection_frame (model : rTFPGModel) :
    (∀ (st : States) (s : DataSample), isSensorReading model s = false →
      (∀ x, ((processSample model st s) x).robustness = (st x).robustness) ∧
      (∀ x, resolveFaultTarget model s.parameterID ≠ some x →
        processSample model st s x = st x) ∧
      (∀ t, resolveFaultTarget model s.parameterID = some t →
        ¬ ((st t).is_active = false ∧ 0 < s.value) →
        processSample model st s = st) ∧
      (∀ t, resolveFaultTarget model s.parameterID = some t →
        (st t).is_active = false → 0 < s.value →
        processSample model st s t =
          ⟨true, (st t).robustness, s.timestamp_ms, s.value⟩)) ∧
    (∀ samples : List DataSample,
      (∀ s ∈ samples, isSensorReading model s = false) →
      ∀ x, (evaluateSignalTrace model initStates samples x).robustness = 0) := by
  have hstep : ∀ (st : States) (s : DataSample),
      isSensorReading model s = false →
      processSample model st s = faultStep model s st := by
    intro st s hs
    unfold processSample
    simp [hs]
  constructor
  · intro st s hs
    rw [hstep st s hs]
    refine ⟨fun x => faultStep_robustness model s st x, ?_, ?_, ?_⟩
    · intro x hx
      unfold faultStep
      cases h : resolveFaultTarget model s.parameterID with
      | none => rfl
      | some t =>
        have hxt : x ≠ t := fun he => hx (he ▸ h)
        by_cases hc : (st t).is_active = false ∧ 0 < s.value
        · simp only [hc, if_pos]
          unfold updateState
          simp [hxt]
        · simp [hc]
    · intro t ht hc
      unfold faultStep
      rw [ht]
      simp [hc]
    · intro t ht hi hv
      unfold faultStep
      rw [ht]
      simp only [hi, hv, and_self, if_pos]
      unfold updateState
      simp
  · intro samples hall x
    unfold evaluateSignalTrace
    have main : ∀ (l : List DataSample) (st : States),
        (∀ s ∈ l, isSensorReading model s = false) →
        (∀ y, (st y).robustness = 0) →
        ∀ y, ((l.foldl (processSample model) st) y).robustness = 0 := by
      intro l
      induction l with
      | nil => intro st _ h y; exact h y
      | cons s rest ih =>
        intro st hl h y
        simp only [List.foldl_cons]
        refine ih (processSample model st s)
          (fun s' hs' => hl s' (List.mem_cons_of_mem _ hs')) ?_ y
        intro z
        rw [hstep st s (hl s (List.mem_cons_self _ _))]
        rw [faultStep_robustness]
        exact h z
    exact main samples initStates hall (fun _ => rfl) x

/-- Witness for C10 on a concrete model, state and fault sample: the
sample "FM1" (no signal is named "FM1") activates node FM1 with
robustness kept at 0. -/
theorem fault_injection_frame_witness :
    (evaluateSignalTrace
        ⟨[⟨"s1", "Temp", "f", "C", 0, 100⟩],
         [⟨"FM1", "Pump Burnout", NodeType.FailureMode, none, none, 0⟩],
         []⟩
        initStates [⟨7, "FM1", 2, true⟩]) "FM1" = ⟨true, 0, 7, 2⟩ := by
  have h := (fault_injection_frame
    ⟨[⟨"s1", "Temp", "f", "C", 0, 100⟩],
     [⟨"FM1", "Pump Burnout", NodeType.FailureMode, none, none, 0⟩],
     []⟩).1 initStates ⟨7, "FM1", 2, true⟩ (by decide)
  have h4 := h.2.2.2 "FM1" (by decide) (by decide) (by decide)
  simpa [evaluateSignalTrace] using h4

/-! ## Slot lemmas for the sensor-branch node fold -/

/-- A node's sensor step writes only its own slot. -/
theorem sensorNodeStep_other (model : rTFPGModel) (s : DataSample)
    (st : States) (nd : Node) (x : String) (hx : x ≠ nd.id) :
    (sensorNodeStep model s st nd) x = st x := by
  unfold sensorNodeStep
  cases ht : nd.type with
  | FailureMode => rfl
  | Discrepancy =>
    cases hp : nd.predicate with
    | none => rfl
    | some pred =>
      simp only
      split_ifs <;> simp [updateState, hx]

/-- A fold of sensor steps leaves slots outside the node list untouched. -/
theorem foldl_sensor_notmem (model : rTFPGModel) (s : DataSample) :
    ∀ (nodes : List Node) (st : States) (x : String),
      x ∉ nodes.map (·.id) →
      (nodes.foldl (sensorNodeStep model s) st) x = st x := by
  intro nodes
  induction nodes with
  | nil => intro st x _; rfl
  | cons nd rest ih =>
    intro st x hx
    simp only [List.map_cons, List.mem_cons, not_or] at hx
    simp only [List.foldl_cons]
    rw [ih _ x hx.2, sensorNodeStep_other model s st nd x hx.1]

/-- An already-active node is left entirely unchanged by its own sensor
step (the robustness overwrite and the activation both require
inactivity). -/
theorem sensorNodeStep_active (model : rTFPGModel) (s : DataSample)
    (st : States) (nd : Node) (h : (st nd.id).is_active = true) :
    sensorNodeStep model s st nd = st := by
  unfold sensorNodeStep
  cases ht : nd.type with
  | FailureMode => rfl
  | Discrepancy =>
    cases hp : nd.predicate with
    | none => rfl
    | some pred =>
      simp only [h]
      split_ifs <;> simp_all

/-- An active slot is frozen across any sensor step. -/
theorem sensorNodeStep_frozen (model : rTFPGModel) (s : DataSample)
    (st : States) (nd : Node) (x : String) (h : (st x).is_active = true) :
    (sensorNodeStep model s st nd) x = st x := by
  by_cases hx : x = nd.id
  · subst hx
    rw [sensorNodeStep_active model s st nd h]
  · exact sensorNodeStep_other model s st nd x hx

/-- An active slot is frozen across the whole per-sample node fold. -/
theorem foldl_sensor_frozen (model : rTFPGModel) (s : DataSample) :
    ∀ (nodes : List Node) (st : States) (x : String),
      (st x).is_active = true →
      (nodes.foldl (sensorNodeStep model s) st) x = st x := by
  intro nodes
  induction nodes with
  | nil => intro st x _; rfl
  | cons nd rest ih =>
    intro st x h
    simp only [List.foldl_cons]
    have hstep := sensorNodeStep_frozen model s st nd x h
    rw [ih _ x (by rw [hstep]; exact h), hstep]

/-- An active slot is frozen across a fault step. -/
theorem faultStep_frozen (model : rTFPGModel) (s : DataSample)
    (st : States) (x : String) (h : (st x).is_active = true) :
    (faultStep model s st) x = st x := by
  unfold faultStep
  cases hr : resolveFaultTarget model s.parameterID with
  | none => rfl
  | some t =>
    by_cases hc : (st t).is_active = false ∧ 0 < s.value
    · have hxt : x ≠ t := by
        intro he
        rw [he, hc.1] at h
        exact Bool.false_ne_true h
      simp only [hc, if_pos]
      simp [updateState, hxt]
    · simp [hc]

/-- An active slot is frozen across the processing of one sample. -/
theorem processSample_frozen (model : rTFPGModel) (st : States)
    (s : DataSample) (x : String) (h : (st x).is_active = true) :
    (processSample model st s) x = st x := by
  unfold processSample
  split_ifs with hs
  · exact foldl_sensor_frozen model s model.nodes st x h
  · exact faultStep_frozen model s st x h

/-- An active slot is frozen across a whole replay. -/
theorem replay_frozen (model : rTFPGModel) :
    ∀ (samples : List DataSample) (st : States) (x : String),
      (st x).is_active = true →
      (evaluateSignalTrace model st samples) x = st x := by
  intro samples
  induction samples with
  | nil => intro st x _; rfl
  | cons s rest ih =>
    intro st x h
    unfold evaluateSignalTrace at *
    simp only [List.foldl_cons]
    have hstep := processSample_frozen model st s x h
    rw [ih _ x (by rw [hstep]; exact h), hstep]

/-- State of the engine after replaying the first `i` buffered samples
from the freshly-constructed state. -/
def stAt (model : rTFPGModel) (samples : List DataSample) (i : ℕ) : States :=
  evaluateSignalTrace model initStates (samples.take i)

/-- Once a slot is active at stage `j`, it holds the same value at every
later stage. -/
theorem stAt_frozen_le (model : rTFPGModel) (samples : List DataSample)
    (j i : ℕ) (hji : j ≤ i) (x : String)
    (h : ((stAt model samples j) x).is_active = true) :
    (stAt model samples i) x = (stAt model samples j) x := by
  have hdecomp : samples.take i = samples.take j ++ (samples.drop j).take (i - j) := by
    rw [← List.take_add]
    congr 1
    omega
  unfold stAt evaluateSignalTrace at *
  rw [hdecomp, List.foldl_append]
  exact replay_frozen model _ _ x h

/-- Contrapositive: a slot inactive at stage `i` was inactive at every
earlier stage. -/
theorem stAt_inactive_mono (model : rTFPGModel) (samples : List DataSample)
    (j i : ℕ) (hji : j ≤ i) (x : String)
    (h : ((stAt model samples i) x).is_active = false) :
    ((stAt model samples j) x).is_active = false := by
  by_contra hc
  have hT : ((stAt model samples j) x).is_active = true := by
    cases hb : ((stAt model samples j) x).is_active with
    | false => exact absurd hb hc
    | true => rfl
  rw [stAt_frozen_le model samples j i hji x hT, hT] at h
  simp at h

/-! ## Activation characterization of the sensor step -/

/-- The sensor branch applies to node `nd` for sample `s` iff `nd` is a
discrepancy whose predicate's resolved source name equals the sample's
parameterID. -/
def sensorMatches (model : rTFPGModel) (nd : Node) (s : DataSample) : Prop :=
  nd.type = NodeType.Discrepancy ∧ ∃ pred, nd.predicate = some pred ∧
    (resolveSignal model pred.signal_ref).1 = s.parameterID

instance (model : rTFPGModel) (nd : Node) (s : DataSample) :
    Decidable (sensorMatches model nd s) := by
  unfold sensorMatches
  infer_instance

/-- The robustness the sensor branch computes for node `nd` at sample `s`
(0 when the node has no predicate). -/
def nodeRobustness (model : rTFPGModel) (nd : Node) (s : DataSample) : ℚ :=
  match nd.predicate with
  | some pred =>
    calculateRobustness pred s.value (resolveSignal model pred.signal_ref).2.1
      (resolveSignal model pred.signal_ref).2.2
  | none => 0

/-- The activation condition of the sensor branch for node `nd` at
sample `s`, evaluated on the state `st` the engine holds when `nd`'s
entry is reached in the node loop. -/
def canActivate (model : rTFPGModel) (nd : Node) (st : States)
    (s : DataSample) : Prop :=
  isSensorReading model s = true ∧ sensorMatches model nd s ∧
    0 < nodeRobustness model nd s ∧
    andCondition model nd st s.timestamp_ms = true

/-- The AND-gate precondition reads only `is_active` and
`activation_time_ms`, so it is invariant under state changes that
preserve those two fields (such as a robustness-only overwrite). -/
theorem andCondition_congr (model : rTFPGModel) (nd : Node)
    (st st' : States) (ts : ℕ)
    (h : ∀ x, (st' x).is_active = (st x).is_active ∧
      (st' x).activation_time_ms = (st x).activation_time_ms) :
    andCondition model nd st' ts = andCondition model nd st ts := by
  unfold andCondition
  split_ifs
  · congr 1
    funext e
    rw [(h e.from_).1, (h e.from_).2]
  · rfl

/-- A non-matching node's sensor step is the identity. -/
theorem sensorNodeStep_nomatch (model : rTFPGModel) (s : DataSample)
    (st : States) (nd : Node) (h : ¬ sensorMatches model nd s) :
    sensorNodeStep model s st nd = st := by
  unfold sensorNodeStep
  cases ht : nd.type with
  | FailureMode => rfl
  | Discrepancy =>
    cases hp : nd.predicate with
    | none => rfl
    | some pred =>
      simp only
      by_cases hsrc : (resolveSignal model pred.signal_ref).1 = s.parameterID
      · exact absurd ⟨ht, pred, hp, hsrc⟩ h
      · rw [if_neg hsrc]

/-- Value of a matching node's own slot after its sensor step, starting
from an inactive slot: the latched activation record when the robustness
is positive and the gate condition holds, else only the robustness
overwrite. -/
theorem sensorNodeStep_self (model : rTFPGModel) (s : DataSample)
    (st : States) (nd : Node) (hm : sensorMatches model nd s)
    (hin : (st nd.id).is_active = false) :
    (sensorNodeStep model s st nd) nd.id =
      if 0 < nodeRobustness model nd s ∧
          andCondition model nd st s.timestamp_ms = true then
        ⟨true, nodeRobustness model nd s, s.timestamp_ms, s.value⟩
      else { st nd.id with robustness := nodeRobustness model nd s } := by
  obtain ⟨ht, pred, hp, hsrc⟩ := hm
  have hrob : calculateRobustness pred s.value
      (resolveSignal model pred.signal_ref).2.1
      (resolveSignal model pred.signal_ref).2.2 = nodeRobustness model nd s := by
    unfold nodeRobustness
    rw [hp]
  unfold sensorNodeStep
  rw [ht, hp]
  simp only [hsrc, if_pos, hin, and_true, hrob]
  have hcond_eq : andCondition model nd
      (updateState st nd.id
        { is_active := false, robustness := nodeRobustness model nd s,
          activation_time_ms := (st nd.id).activation_time_ms,
          trigger_value := (st nd.id).trigger_value }) s.timestamp_ms
      = andCondition model nd st s.timestamp_ms := by
    apply andCondition_congr
    intro x
    unfold updateState
    by_cases hx : x = nd.id
    · subst hx; simp [hin]
    · simp [hx]
  rw [hcond_eq]
  by_cases hpos : 0 < nodeRobustness model nd s
  · rw [if_pos hpos]
    by_cases hcond : andCondition model nd st s.timestamp_ms = true
    · rw [if_pos hcond, if_pos ⟨hpos, hcond⟩]
      simp [updateState]
    · rw [if_neg hcond, if_neg (by intro hc; exact hcond hc.2)]
      simp [updateState]
  · rw [if_neg hpos, if_neg (by intro hc; exact hpos hc.1)]
    simp [updateState]

/-! ## Unique-writer decomposition of the node fold -/

/-- With unique node ids, the final value of node `nd`'s slot after the
per-sample node fold is produced by `nd`'s own step, run on the
intermediate state reached after the earlier entries; and that
intermediate state still holds the pre-sample value of `nd`'s slot. -/
theorem foldl_sensor_at (model : rTFPGModel) (s : DataSample)
    (nodes : List Node) (st : States) (k : ℕ) (nd : Node)
    (hk : nodes[k]? = some nd) (hnodup : (nodes.map (·.id)).Nodup) :
    (nodes.foldl (sensorNodeStep model s) st) nd.id =
      (sensorNodeStep model s ((nodes.take k).foldl (sensorNodeStep model s) st) nd) nd.id ∧
    ((nodes.take k).foldl (sensorNodeStep model s) st) nd.id = st nd.id := by
  have hklen : k < nodes.length := by
    by_contra hge
    rw [List.getElem?_eq_none (by omega)] at hk
    exact Option.noConfusion hk
  have hget : nodes[k] = nd := by
    have := List.getElem?_eq_getElem (l := nodes) (n := k) hklen
    rw [this] at hk
    exact Option.some.inj hk
  have hdrop : nodes.drop k = nd :: nodes.drop (k + 1) := by
    rw [List.drop_eq_getElem_cons hklen, hget]
  have hsplit : nodes = nodes.take k ++ nd :: nodes.drop (k + 1) := by
    conv_lhs => rw [← List.take_append_drop k nodes]
    rw [hdrop]
  have hmapsplit : nodes.map (·.id) =
      (nodes.take k).map (·.id) ++ nd.id :: (nodes.drop (k + 1)).map (·.id) := by
    conv_lhs => rw [hsplit]
    simp
  rw [hmapsplit] at hnodup
  have hnotake : nd.id ∉ (nodes.take k).map (·.id) := by
    have hdisj := (List.nodup_append.mp hnodup).2.2
    intro hmem
    exact hdisj hmem (List.mem_cons_self _ _)
  have hnodrop : nd.id ∉ (nodes.drop (k + 1)).map (·.id) := by
    have hcons := (List.nodup_append.mp hnodup).2.1
    exact (List.nodup_cons.mp hcons).1
  constructor
  · conv_lhs => rw [hsplit]
    rw [List.foldl_append, List.foldl_cons]
    exact foldl_sensor_notmem model s _ _ nd.id hnodrop
  · exact foldl_sensor_notmem model s _ _ nd.id hnotake

/-- Intermediate state of the node loop while processing sample `s`: the
fold over the first `k` node entries. -/
def nodePrefixState (model : rTFPGModel) (s : DataSample) (st : States)
    (k : ℕ) : States :=
  (model.nodes.take k).foldl (sensorNodeStep model s) st

/-! ## Claim C1: activation time of a sensor-activated discrepancy -/

/-- C1: when the slot of node entry `nd` (at position `k` of the node
list) flips from inactive to active while processing the `i`-th buffered
sample, and that sample is a sensor reading, then (a) the activation
condition — matching predicate, strictly positive robustness and, for an
AND gate, all parents active with activation time ≤ the sample's
timestamp — holds at the state the node loop has reached, (b) it failed
at every earlier buffered sample, so `i` is the first such sample in
arrival order, and (c) `is_active`, `robustness`, `activation_time_ms`
and `trigger_value` are latched from this sample, both right after it and
in the final replayed state. -/
theorem activation_time_first (model : rTFPGModel)
    (samples : List DataSample) (hwf : WFModel model) (k i : ℕ)
    (nd : Node) (s : DataSample)
    (hk : model.nodes[k]? = some nd)
    (hi : samples[i]? = some s)
    (hsensor : isSensorReading model s = true)
    (hinact : ((stAt model samples i) nd.id).is_active = false)
    (hact : ((stAt model samples (i + 1)) nd.id).is_active = true) :
    canActivate model nd (nodePrefixState model s (stAt model samples i) k) s ∧
    (∀ j t, j < i → samples[j]? = some t →
      ¬ canActivate model nd (nodePrefixState model t (stAt model samples j) k) t) ∧
    (stAt model samples (i + 1)) nd.id =
      ⟨true, nodeRobustness model nd s, s.timestamp_ms, s.value⟩ ∧
    (evaluateSignalTrace model initStates samples) nd.id =
      ⟨true, nodeRobustness model nd s, s.timestamp_ms, s.value⟩ := by
  -- the state after sample i is one processSample step past the state before it
  have hstep : ∀ (j : ℕ) (t : DataSample), samples[j]? = some t →
      stAt model samples (j + 1) = processSample model (stAt model samples j) t := by
    intro j t ht
    unfold stAt evaluateSignalTrace
    rw [List.take_succ, ht]
    simp [List.foldl_append]
  -- the slot analysis of the sensor fold for a sensor sample
  have hslot : ∀ (j : ℕ) (t : DataSample), samples[j]? = some t →
      isSensorReading model t = true →
      (stAt model samples (j + 1)) nd.id =
        (sensorNodeStep model t
          (nodePrefixState model t (stAt model samples j) k) nd) nd.id ∧
      (nodePrefixState model t (stAt model samples j) k) nd.id =
        (stAt model samples j) nd.id := by
    intro j t ht htsensor
    rw [hstep j t ht]
    unfold processSample
    rw [if_pos htsensor]
    exact foldl_sensor_at model t model.nodes (stAt model samples j) k nd hk hwf.1
  obtain ⟨hslot_i, hpre_i⟩ := hslot i s hi hsensor
  -- the node must match the sample: otherwise its slot could not flip
  have hmatch : sensorMatches model nd s := by
    by_contra hnm
    rw [hslot_i, sensorNodeStep_nomatch model s _ nd hnm, hpre_i, hinact] at hact
    exact Bool.false_ne_true hact
  have hpreinact : ((nodePrefixState model s (stAt model samples i) k) nd.id).is_active
      = false := by
    rw [hpre_i]; exact hinact
  have hself := sensorNodeStep_self model s
    (nodePrefixState model s (stAt model samples i) k) nd hmatch hpreinact
  -- the activating branch must have been taken
  have hcond : 0 < nodeRobustness model nd s ∧
      andCondition model nd (nodePrefixState model s (stAt model samples i) k)
        s.timestamp_ms = true := by
    by_contra hc
    rw [hslot_i, hself, if_neg hc] at hact
    simp only at hact
    rw [hpre_i, hinact] at hact
    exact Bool.false_ne_true hact
  have hlatch : (stAt model samples (i + 1)) nd.id =
      ⟨true, nodeRobustness model nd s, s.timestamp_ms, s.value⟩ := by
    rw [hslot_i, hself, if_pos hcond]
  refine ⟨⟨hsensor, hmatch, hcond.1, hcond.2⟩, ?_, hlatch, ?_⟩
  · -- no earlier sample satisfied the activation condition
    intro j t hj ht hcan
    obtain ⟨htsensor, htmatch, htpos, htcond⟩ := hcan
    obtain ⟨hslot_j, hpre_j⟩ := hslot j t ht htsensor
    have hinact_j : ((stAt model samples j) nd.id).is_active = false :=
      stAt_inactive_mono model samples j i (Nat.le_of_lt hj) nd.id hinact
    have hpreinact_j :
        ((nodePrefixState model t (stAt model samples j) k) nd.id).is_active
        = false := by
      rw [hpre_j]; exact hinact_j
    have hself_j := sensorNodeStep_self model t
      (nodePrefixState model t (stAt model samples j) k) nd htmatch hpreinact_j
    have hact_j : ((stAt model samples (j + 1)) nd.id).is_active = true := by
      rw [hslot_j, hself_j, if_pos ⟨htpos, htcond⟩]
    have := stAt_inactive_mono model samples (j + 1) i (by omega) nd.id hinact
    rw [hact_j] at this
    simp at this
  · -- the latched record survives to the end of the replay
    have hsampdecomp : samples = samples.take (i + 1) ++ samples.drop (i + 1) :=
      (List.take_append_drop (i + 1) samples).symm
    have : evaluateSignalTrace model initStates samples =
        evaluateSignalTrace model (stAt model samples (i + 1))
          (samples.drop (i + 1)) := by
      conv_lhs => rw [hsampdecomp]
      unfold stAt evaluateSignalTrace
      rw [List.foldl_append]
    rw [this, replay_frozen model _ _ nd.id (by rw [hlatch]), hlatch]

/-- Concrete model for the C1 witness: one signal, one OR discrepancy. -/
def c1Model : rTFPGModel :=
  ⟨[⟨"s1", "S1", "float", "C", 0, 1⟩],
   [⟨"D1", "High Temp", NodeType.Discrepancy, some GateType.OR,
     some ⟨"s1", ">", 0⟩, 1⟩],
   []⟩

/-- Concrete sample buffer for the C1 witness. -/
def c1Samples : List DataSample := [⟨10, "S1", 1, false⟩]

/-- Witness for C1: in the concrete run, D1 flips at sample 0 and the
theorem latches `activation_time_ms = 10`, robustness 1 and trigger 1. -/
theorem activation_time_first_witness :
    (evaluateSignalTrace c1Model initStates c1Samples) "D1" = ⟨true, 1, 10, 1⟩ := by
  have h := activation_time_first c1Model c1Samples (by decide) 0 0
    ⟨"D1", "High Temp", NodeType.Discrepancy, some GateType.OR,
      some ⟨"s1", ">", 0⟩, 1⟩
    ⟨10, "S1", 1, false⟩ (by decide) (by decide) (by decide) (by decide)
    (by with_unfolding_all decide)
  rw [h.2.2.2]
  with_unfolding_all decide

/-! ## Prognosis Manager (PrognosisManager.cpp)

`calculateTTC` runs Dijkstra over the min-propagation-time adjacency.  The
C++ `while (!pq.empty())` loop becomes a fueled recursion returning
`none` on fuel exhaustion; `+infinity` in the result becomes
`Option ℚ = none`. -/

/-- Prognosis result; `ttc = none` models the C++ `+infinity`. -/
structure PrognosisResult where
  ttc : Option ℚ
  critical_node_id : String
deriving DecidableEq, Repr

/-- Forward adjacency of a node (PrognosisManager::buildGraph):
`(child, time_min_ms)` pairs in edge-list order.  A node absent from
`m_adj` yields `[]`, which the traversal treats identically to the C++
`m_adj.count(u)` guard. -/
def adjOf (model : rTFPGModel) (u : String) : List (String × ℤ) :=
  model.edges.filterMap
    (fun e => if e.from_ = u then some (e.to_, e.time_min_ms) else none)

/-- Lookup in the `nodeStates` argument (an `unordered_map` modelled as an
association list with unique keys). -/
def statesLookup (l : List (String × NodeState)) (u : String) : Option NodeState :=
  (l.find? (fun p => p.1 = u)).map (·.2)

/-- `nodeStates.count(u) && nodeStates.at(u).is_active`. -/
def activeIn (l : List (String × NodeState)) (u : String) : Bool :=
  match statesLookup l u with
  | some st => st.is_active
  | none => false

/-- `std::greater` on `std::pair<double, std::string>`: the priority queue
pops the lexicographically least (time, id) pair. -/
def pairLe (a b : ℚ × String) : Bool :=
  decide (a.1 < b.1) || (decide (a.1 = b.1) && decide (a.2 ≤ b.2))

/-- Pop one minimal element of the queue. -/
def popMin : List (ℚ × String) → Option ((ℚ × String) × List (ℚ × String))
  | [] => none
  | x :: xs =>
    match popMin xs with
    | none => some (x, [])
    | some (m, rest) => if pairLe x m then some (x, xs) else some (m, x :: rest)

/-- The popped element is a member of the queue and the remaining queue is
memberwise contained in it. -/
theorem popMin_mem : ∀ (l : List (ℚ × String)) (m : ℚ × String)
    (rest : List (ℚ × String)), popMin l = some (m, rest) →
    m ∈ l ∧ ∀ q ∈ rest, q ∈ l := by
  intro l
  induction l with
  | nil => intro m rest h; exact Option.noConfusion h
  | cons x xs ih =>
    intro m rest h
    unfold popMin at h
    cases hm : popMin xs with
    | none =>
      rw [hm] at h
      dsimp only at h
      obtain ⟨h1, h2⟩ := Prod.mk.injEq _ _ _ _ ▸ Option.some.inj h
      subst h1; subst h2
      exact ⟨List.mem_cons_self _ _, fun q hq => absurd hq (List.not_mem_nil q)⟩
    | some p =>
      obtain ⟨m', rest'⟩ := p
      rw [hm] at h
      dsimp only at h
      obtain ⟨hmem', hsub'⟩ := ih m' rest' hm
      by_cases hle : pairLe x m' = true
      · rw [if_pos hle] at h
        obtain ⟨h1, h2⟩ := Prod.mk.injEq _ _ _ _ ▸ Option.some.inj h
        subst h1; subst h2
        exact ⟨List.mem_cons_self _ _, fun q hq => List.mem_cons_of_mem _ hq⟩
      · rw [if_neg hle] at h
        obtain ⟨h1, h2⟩ := Prod.mk.injEq _ _ _ _ ▸ Option.some.inj h
        subst h1; subst h2
        refine ⟨List.mem_cons_of_mem _ hmem', fun q hq => ?_⟩
        rcases List.mem_cons.mp hq with hqx | hqr
        · exact hqx ▸ List.mem_cons_self _ _
        · exact List.mem_cons_of_mem _ (hsub' q hqr)

/-- `!min_dist.count(v) || min_dist[v] > arrival` of the relaxation. -/
def improveCheck (dist : String → Option ℚ) (v : String) (arrival : ℚ) : Bool :=
  match dist v with
  | some dv => decide (arrival < dv)
  | none => true

/-- Relaxation of one neighbor (PrognosisManager.cpp lines 141-165),
threading the queue and the distance map. -/
def relaxStep (nodeStates : List (String × NodeState)) (current_time : ℚ)
    (d : ℚ) (acc : List (ℚ × String) × (String → Option ℚ))
    (edge : String × ℤ) : List (ℚ × String) × (String → Option ℚ) :=
  if activeIn nodeStates edge.1 = true then acc
  else if d + (edge.2 : ℚ) < current_time then acc
  else if improveCheck acc.2 edge.1 (d + (edge.2 : ℚ)) = true then
    (acc.1 ++ [(d + (edge.2 : ℚ), edge.1)],
     fun x => if x = edge.1 then some (d + (edge.2 : ℚ)) else acc.2 x)
  else acc

/-- `m_node_map.count(u) && m_node_map.at(u).criticality_level >= threshold`. -/
def critCheck (model : rTFPGModel) (criticalityThreshold : ℤ) (u : String) : Bool :=
  match nodeMapAt model u with
  | some nd => decide (criticalityThreshold ≤ nd.criticality_level)
  | none => false

/-- `min_dist.count(u) && d > min_dist.at(u)`. -/
def staleCheck (min_dist : String → Option ℚ) (u : String) (d : ℚ) : Bool :=
  match min_dist u with
  | some du => decide (du < d)
  | none => false

/-- Dijkstra loop of `calculateTTC` (PrognosisManager.cpp lines 120-167). -/
def dijkstraLoop (model : rTFPGModel) (nodeStates : List (String × NodeState))
    (criticalityThreshold : ℤ) (current_time : ℚ) :
    ℕ → List (ℚ × String) → (String → Option ℚ) → Option PrognosisResult
  | 0, _, _ => none
  | fuel + 1, pq, min_dist =>
    match popMin pq with
    | none => some ⟨none, ""⟩
    | some ((d, u), pq') =>
      if critCheck model criticalityThreshold u = true ∧
          activeIn nodeStates u = false then
        some ⟨some (d - current_time), u⟩
      else if staleCheck min_dist u d = true then
        dijkstraLoop model nodeStates criticalityThreshold current_time fuel pq' min_dist
      else
        let relaxed := (adjOf model u).foldl
          (relaxStep nodeStates current_time d) (pq', min_dist)
        dijkstraLoop model nodeStates criticalityThreshold current_time fuel
          relaxed.1 relaxed.2

/-- Seeding of the state front (PrognosisManager.cpp lines 111-117): one
queue entry per active node, keyed by its activation time. -/
def seedFront (nodeStates : List (String × NodeState)) :
    List (ℚ × String) × (String → Option ℚ) :=
  nodeStates.foldl
    (fun acc p =>
      if p.2.is_active then
        (acc.1 ++ [((p.2.activation_time_ms : ℚ), p.1)],
         fun x => if x = p.1 then some ((p.2.activation_time_ms : ℚ)) else acc.2 x)
      else acc)
    ([], fun _ => none)

/-- REQ-PROG-02/03 (PrognosisManager::calculateTTC). -/
def calculateTTC (model : rTFPGModel) (nodeStates : List (String × NodeState))
    (criticalityThreshold : ℤ) (current_time : ℚ) (fuel : ℕ) :
    Option PrognosisResult :=
  let seeded := seedFront nodeStates
  dijkstraLoop model nodeStates criticalityThreshold current_time fuel
    seeded.1 seeded.2

/-- One forward hop of the prognosis graph. -/
def stepsTo (model : rTFPGModel) (a b : String) : Prop :=
  ∃ w, (b, w) ∈ adjOf model a

/-- `b` is reachable (along forward edges) from some node recorded active
in the given state map. -/
def ReachableFromActive (model : rTFPGModel)
    (nodeStates : List (String × NodeState)) (b : String) : Prop :=
  ∃ a, (∃ st, (a, st) ∈ nodeStates ∧ st.is_active = true) ∧
    Relation.ReflTransGen (stepsTo model) a b

/-- Queue invariant of the Dijkstra loop: every entry is either an
original seed (its key is the recorded activation time of an active
node) or was pushed with an arrival time ≥ current_time; and every
entry's node is reachable from the active front. -/
def PQInv (model : rTFPGModel) (nodeStates : List (String × NodeState))
    (current_time : ℚ) (pq : List (ℚ × String)) : Prop :=
  ∀ p ∈ pq,
    ((∃ st, (p.2, st) ∈ nodeStates ∧ st.is_active = true ∧
        (st.activation_time_ms : ℚ) = p.1) ∨ current_time ≤ p.1) ∧
    ReachableFromActive model nodeStates p.2

/-- `nodeMapAt` returns an element of the node list carrying the looked-up
id. -/
theorem nodeMapAt_mem (model : rTFPGModel) (u : String) (nd : Node)
    (h : nodeMapAt model u = some nd) : nd ∈ model.nodes ∧ nd.id = u := by
  unfold nodeMapAt at h
  have main : ∀ (l : List Node) (acc : Option Node),
      (∀ nd', acc = some nd' → nd' ∈ model.nodes ∧ nd'.id = u) →
      (∀ nd'' ∈ l, nd'' ∈ model.nodes) →
      ∀ nd', l.foldl (fun acc nd => if nd.id = u then some nd else acc) acc = some nd' →
        nd' ∈ model.nodes ∧ nd'.id = u := by
    intro l
    induction l with
    | nil => intro acc hacc _ nd' h'; exact hacc nd' h'
    | cons x xs ih =>
      intro acc hacc hmem nd' h'
      simp only [List.foldl_cons] at h'
      refine ih _ ?_ (fun nd'' hnd'' => hmem nd'' (List.mem_cons_of_mem _ hnd'')) nd' h'
      intro nd0 hnd0
      by_cases hx : x.id = u
      · rw [if_pos hx] at hnd0
        exact ⟨(Option.some.inj hnd0) ▸ hmem x (List.mem_cons_self _ _),
          (Option.some.inj hnd0) ▸ hx⟩
      · rw [if_neg hx] at hnd0
        exact hacc nd0 hnd0
  exact main model.nodes none (fun _ hfalse => Option.noConfusion hfalse)
    (fun _ h => h) nd h

/-- With unique keys, `activeIn l u = false` means every entry under key
`u` is inactive. -/
theorem activeIn_false_all (l : List (String × NodeState)) (u : String)
    (hnodup : (l.map Prod.fst).Nodup) (h : activeIn l u = false) :
    ∀ p ∈ l, p.1 = u → p.2.is_active = false := by
  intro p hp hpu
  induction l with
  | nil => exact absurd hp (List.not_mem_nil p)
  | cons x xs ih =>
    rcases List.mem_cons.mp hp with hpx | hpxs
    · subst hpx
      unfold activeIn statesLookup at h
      rw [List.find?_cons_of_pos _ (by simp [hpu])] at h
      simpa using h
    · have hxu : ¬ (x.1 = u) := by
        intro hxu
        have : u ∈ xs.map Prod.fst :=
          hpu ▸ List.mem_map_of_mem Prod.fst hpxs
        rw [← hxu] at this
        exact (List.nodup_cons.mp (by simpa using hnodup)).1 this
      refine ih ?_ ?_ hpxs
      · exact (List.nodup_cons.mp (by simpa using hnodup)).2
      · unfold activeIn statesLookup at h ⊢
        rw [List.find?_cons_of_neg _ (by simp [hxu])] at h
        exact h

/-- The seeded queue satisfies the queue invariant. -/
theorem seedFront_inv (model : rTFPGModel)
    (nodeStates : List (String × NodeState)) (current_time : ℚ) :
    PQInv model nodeStates current_time (seedFront nodeStates).1 := by
  unfold seedFront
  have main : ∀ (l : List (String × NodeState))
      (acc : List (ℚ × String) × (String → Option ℚ)),
      (∀ p ∈ l, p ∈ nodeStates) →
      PQInv model nodeStates current_time acc.1 →
      PQInv model nodeStates current_time
        ((l.foldl (fun acc p =>
          if p.2.is_active then
            (acc.1 ++ [((p.2.activation_time_ms : ℚ), p.1)],
             fun x => if x = p.1 then some ((p.2.activation_time_ms : ℚ)) else acc.2 x)
          else acc) acc).1) := by
    intro l
    induction l with
    | nil => intro acc _ hacc; exact hacc
    | cons x xs ih =>
      intro acc hl hacc
      simp only [List.foldl_cons]
      refine ih _ (fun p hp => hl p (List.mem_cons_of_mem _ hp)) ?_
      by_cases hx : x.2.is_active
      · rw [if_pos hx]
        intro q hq
        rcases List.mem_append.mp hq with hq1 | hq2
        · exact hacc q hq1
        · have hqx : q = ((x.2.activation_time_ms : ℚ), x.1) := by
            simpa using hq2
          subst hqx
          constructor
          · left
            exact ⟨x.2, by simpa using hl x (List.mem_cons_self _ _), hx, rfl⟩
          · exact ⟨x.1, ⟨x.2, by simpa using hl x (List.mem_cons_self _ _), hx⟩,
              Relation.ReflTransGen.refl⟩
      · rw [if_neg hx]
        exact hacc
  exact main nodeStates ([], fun _ => none) (fun p hp => hp) (fun q hq => absurd hq (List.not_mem_nil q))

/-- The relaxation fold only adds entries with arrival time ≥ current_time
whose node is a forward neighbor of the popped node. -/
theorem relaxFold_mem (nodeStates : List (String × NodeState))
    (current_time d : ℚ) :
    ∀ (adj : List (String × ℤ)) (acc : List (ℚ × String) × (String → Option ℚ))
      (q : ℚ × String),
      q ∈ ((adj.foldl (relaxStep nodeStates current_time d) acc).1) →
      q ∈ acc.1 ∨ (current_time ≤ q.1 ∧ ∃ e ∈ adj, q.2 = e.1) := by
  intro adj
  induction adj with
  | nil => intro acc q hq; exact Or.inl hq
  | cons e rest ih =>
    intro acc q hq
    simp only [List.foldl_cons] at hq
    rcases ih _ q hq with hacc | ⟨hct, e', he', hqe⟩
    · unfold relaxStep at hacc
      by_cases h1 : activeIn nodeStates e.1 = true
      · rw [if_pos h1] at hacc
        exact Or.inl hacc
      · rw [if_neg h1] at hacc
        by_cases h2 : d + (e.2 : ℚ) < current_time
        · rw [if_pos h2] at hacc
          exact Or.inl hacc
        · rw [if_neg h2] at hacc
          by_cases h3 : improveCheck acc.2 e.1 (d + (e.2 : ℚ)) = true
          · rw [if_pos h3] at hacc
            rcases List.mem_append.mp hacc with hq1 | hq2
            · exact Or.inl hq1
            · have hqe : q = (d + (e.2 : ℚ), e.1) := by simpa using hq2
              subst hqe
              exact Or.inr ⟨le_of_not_lt h2, e, List.mem_cons_self _ _, rfl⟩
          · rw [if_neg h3] at hacc
            exact Or.inl hacc
    · exact Or.inr ⟨hct, e', List.mem_cons_of_mem _ he', hqe⟩

/-- Main loop invariant lemma for claim C2. -/
theorem dijkstraLoop_critical (model : rTFPGModel)
    (nodeStates : List (String × NodeState)) (criticalityThreshold : ℤ)
    (current_time : ℚ)
    (hnodup : (nodeStates.map Prod.fst).Nodup) :
    ∀ (fuel : ℕ) (pq : List (ℚ × String)) (min_dist : String → Option ℚ)
      (r : PrognosisResult),
      PQInv model nodeStates current_time pq →
      dijkstraLoop model nodeStates criticalityThreshold current_time fuel pq min_dist
        = some r →
      (∀ t u, r = ⟨some t, u⟩ →
        (∃ nd ∈ model.nodes, nd.id = u ∧ criticalityThreshold ≤ nd.criticality_level) ∧
        (∀ p ∈ nodeStates, p.1 = u → p.2.is_active = false) ∧
        0 ≤ t ∧
        ReachableFromActive model nodeStates u) ∧
      (r.ttc = none → r.critical_node_id = "") := by
  intro fuel
  induction fuel with
  | zero => intro pq min_dist r _ hr; exact Option.noConfusion hr
  | succ fuel ih =>
    intro pq min_dist r hinv hr
    unfold dijkstraLoop at hr
    cases hpop : popMin pq with
    | none =>
      rw [hpop] at hr
      have hre : r = ⟨none, ""⟩ := (Option.some.inj hr).symm
      subst hre
      exact ⟨fun t u h => PrognosisResult.noConfusion h (fun h1 _ => Option.noConfusion h1),
        fun _ => rfl⟩
    | some p =>
      obtain ⟨⟨d, u⟩, pq'⟩ := p
      rw [hpop] at hr
      obtain ⟨hmem, hsub⟩ := popMin_mem pq (d, u) pq' hpop
      simp only at hr
      by_cases hcrit : critCheck model criticalityThreshold u = true ∧
          activeIn nodeStates u = false
      · rw [if_pos hcrit] at hr
        have hre : r = ⟨some (d - current_time), u⟩ := (Option.some.inj hr).symm
        subst hre
        refine ⟨?_, fun hfalse => Option.noConfusion hfalse⟩
        intro t u' he
        have ht : t = d - current_time := by
          have h1 := congrArg PrognosisResult.ttc he
          simp only at h1
          exact Option.some.inj h1.symm
        have hu : u' = u := by
          have h2 := congrArg PrognosisResult.critical_node_id he
          simp only at h2
          exact h2.symm
        rw [ht, hu]
        have hinactive : ∀ p ∈ nodeStates, p.1 = u → p.2.is_active = false :=
          activeIn_false_all nodeStates u hnodup hcrit.2
        have hnd : ∃ nd ∈ model.nodes, nd.id = u ∧
            criticalityThreshold ≤ nd.criticality_level := by
          have hc1 := hcrit.1
          unfold critCheck at hc1
          cases hmap : nodeMapAt model u with
          | none => rw [hmap] at hc1; exact absurd hc1 (by simp)
          | some nd =>
            obtain ⟨hin, hid⟩ := nodeMapAt_mem model u nd hmap
            rw [hmap] at hc1
            exact ⟨nd, hin, hid, by simpa using hc1⟩
        obtain ⟨hkey, hreach⟩ := hinv (d, u) hmem
        have hd : current_time ≤ d := by
          rcases hkey with ⟨st, hst, hact, _⟩ | hct
          · exact absurd hact (by rw [hinactive (u, st) hst rfl]; simp)
          · exact hct
        exact ⟨hnd, hinactive, by linarith, hreach⟩
      · rw [if_neg hcrit] at hr
        by_cases hstale : staleCheck min_dist u d = true
        · rw [if_pos hstale] at hr
          refine ih pq' min_dist r (fun q hq => hinv q (hsub q hq)) hr
        · rw [if_neg hstale] at hr
          refine ih _ _ r ?_ hr
          intro q hq
          rcases relaxFold_mem nodeStates current_time d (adjOf model u) (pq', min_dist) q hq with
            hq1 | ⟨hct, e, he, hqe⟩
          · exact hinv q (hsub q hq1)
          · constructor
            · exact Or.inr hct
            · obtain ⟨_, hreach_u⟩ := hinv (d, u) hmem
              obtain ⟨a, ha, hpath⟩ := hreach_u
              exact ⟨a, ha, Relation.ReflTransGen.tail hpath (by
                rw [hqe]; exact ⟨e.2, by simpa using he⟩)⟩

/-! ## Claim C2: calculateTTC returns an inactive critical reachable node
with a non-negative TTC -/

/-- C2: whenever `calculateTTC` returns a finite ttc, the returned
critical node id names a model node whose criticality level meets the
threshold, that node is not active in the supplied state map, the ttc is
≥ 0 (no search path yields an arrival before current_time), and the node
is reachable from the active front; and a `+∞` result always carries the
empty id (so `+∞` is the result exactly when no inactive critical node is
reached). -/
theorem calculateTTC_critical (model : rTFPGModel)
    (nodeStates : List (String × NodeState)) (criticalityThreshold : ℤ)
    (current_time : ℚ) (fuel : ℕ) (r : PrognosisResult)
    (hnodup : (nodeStates.map Prod.fst).Nodup)
    (hr : calculateTTC model nodeStates criticalityThreshold current_time fuel
      = some r) :
    (∀ t u, r = ⟨some t, u⟩ →
      (∃ nd ∈ model.nodes, nd.id = u ∧ criticalityThreshold ≤ nd.criticality_level) ∧
      (∀ p ∈ nodeStates, p.1 = u → p.2.is_active = false) ∧
      0 ≤ t ∧
      ReachableFromActive model nodeStates u) ∧
    (r.ttc = none → r.critical_node_id = "") := by
  unfold calculateTTC at hr
  exact dijkstraLoop_critical model nodeStates criticalityThreshold current_time
    hnodup fuel _ _ r (seedFront_inv model nodeStates current_time) hr

/-- Concrete model for the C2 witness: active node A at time 100, edge
A→C with minimum propagation 50, C critical at level 9. -/
def c2Model : rTFPGModel :=
  ⟨[],
   [⟨"A", "A", NodeType.Discrepancy, some GateType.OR, some ⟨"s", ">", 0⟩, 0⟩,
    ⟨"C", "C", NodeType.Discrepancy, some GateType.OR, some ⟨"s", ">", 0⟩, 9⟩],
   [⟨"A", "C", 50, 100⟩]⟩

/-- Concrete node states for the C2 witness. -/
def c2States : List (String × NodeState) := [("A", ⟨true, 1, 100, 1⟩)]

/-- Witness for C2: on the concrete model the search returns
ttc = 50 ≥ 0 at node C, which the theorem certifies as an inactive
critical reachable node. -/
theorem calculateTTC_critical_witness :
    (∃ nd ∈ c2Model.nodes, nd.id = "C" ∧ (5:ℤ) ≤ nd.criticality_level) ∧
    (∀ p ∈ c2States, p.1 = "C" → p.2.is_active = false) ∧
    (0:ℚ) ≤ 50 ∧
    ReachableFromActive c2Model c2States "C" := by
  have hr : calculateTTC c2Model c2States 5 100 10 = some ⟨some 50, "C"⟩ := by
    with_unfolding_all decide
  exact (calculateTTC_critical c2Model c2States 5 100 10 ⟨some 50, "C"⟩
    (by decide) hr).1 50 "C" rfl

/-! ## Logic Engine phase 2: hypothesis tracking
(LogicEngine.cpp, findActiveHypotheses lines 135-248) -/

/-- Diagnosis result (LogicEngine.h).  The C++ `std::set` /`std::map`
members are lists here; only their membership and sums matter to the
claims, which are order-invariant. -/
structure DiagnosisResult where
  node : Node
  plausibility : ℚ
  robustness : ℚ
  expected_symptoms : List String
  consistent_symptoms : List String
  symptom_values : List (String × ℚ)
deriving DecidableEq, Repr

/-- Sorted insertion, mirroring `std::set<std::string>` (iteration in
lexicographic order, no duplicates); used for `candidate_failures`, whose
iteration order determines the pre-sort diagnosis order. -/
def insertStr (s : String) : List String → List String
  | [] => [s]
  | x :: xs =>
    if s = x then x :: xs
    else if s < x then s :: x :: xs
    else x :: insertStr s xs

/-- Backward propagation (LogicEngine.cpp lines 158-179), accumulating
the candidate failure set.  Fueled: the C++ recursion carries no visited
set and can diverge on cyclic graphs with compatible time windows.  The
`node_map.at(parent_id)` lookup (which throws when an edge names an
unknown node) is the `none => acc` branch, unreachable under `WFModel`. -/
def backwardPropagate (model : rTFPGModel) (st : States) :
    ℕ → String → List String → List String
  | 0, _, acc => acc
  | fuel + 1, current, acc =>
    model.edges.foldl
      (fun acc e =>
        if e.to_ = current then
          match nodeMapAt model e.from_ with
          | some parent =>
            if parent.type = NodeType.FailureMode then insertStr e.from_ acc
            else if (st e.from_).is_active = true ∧
                (e.time_min_ms : ℚ) ≤ ((st current).activation_time_ms : ℚ)
                  - ((st e.from_).activation_time_ms : ℚ) ∧
                ((st current).activation_time_ms : ℚ)
                  - ((st e.from_).activation_time_ms : ℚ) ≤ (e.time_max_ms : ℚ) then
              backwardPropagate model st fuel e.from_ acc
            else acc
          | none => acc
        else acc)
      acc

/-- Forward BFS collecting all discrepancy descendants of a candidate
(LogicEngine.cpp lines 190-206); the queue is popped at the front, the
`expected` set is kept as an insertion-ordered duplicate-free list (the
C++ `std::set` order only affects the order of the reporting lists, which
no claim depends on). -/
def forwardExpected (model : rTFPGModel) :
    ℕ → List String → List String → List String → List String
  | 0, _, _, expected => expected
  | _ + 1, [], _, expected => expected
  | fuel + 1, u :: queue, visited, expected =>
    let step := model.edges.foldl
      (fun (acc : List String × List String × List String) e =>
        if e.from_ = u ∧ ¬ acc.2.1.contains e.to_ then
          (acc.1 ++ [e.to_], e.to_ :: acc.2.1,
           match nodeMapAt model e.to_ with
           | some nd =>
             if nd.type = NodeType.Discrepancy then acc.2.2 ++ [e.to_] else acc.2.2
           | none => acc.2.2)
        else acc)
      (queue, visited, expected)
    forwardExpected model fuel step.1 step.2.1 step.2.2

/-- Consistency tally over the expected symptoms (LogicEngine.cpp lines
208-221): active count, robustness sum, consistent symptom list, trigger
values; a symptom without a state entry is skipped entirely. -/
def tallyExpected (model : rTFPGModel) (st : States) (expected : List String) :
    ℕ × ℚ × List String × List (String × ℚ) :=
  expected.foldl
    (fun acc s =>
      if (nodeIds model).contains s then
        if (st s).is_active = true then
          (acc.1 + 1, acc.2.1 + (st s).robustness, acc.2.2.1 ++ [s],
           acc.2.2.2 ++ [(s, (st s).trigger_value)])
        else (acc.1, acc.2.1 + (st s).robustness, acc.2.2.1, acc.2.2.2)
      else acc)
    (0, 0, [], [])

/-- Scoring of one candidate failure mode (LogicEngine.cpp lines
188-236); `none` when the plausibility filter rejects it. -/
def diagnose (model : rTFPGModel) (st : States) (fuel : ℕ) (fm_id : String) :
    Option DiagnosisResult :=
  match nodeMapAt model fm_id with
  | none => none
  | some nd =>
    let expected := forwardExpected model fuel [fm_id] [fm_id] []
    let t := tallyExpected model st expected
    let plausibility : ℚ :=
      if expected.isEmpty then 0 else (t.1 : ℚ) / (expected.length : ℚ)
    let aggregate : ℚ :=
      if expected.isEmpty then 0
      else max (-1) (min 1 (t.2.1 / (expected.length : ℚ)))
    if 0 < plausibility then
      some ⟨nd, plausibility, aggregate, expected, t.2.2.1, t.2.2.2⟩
    else none

/-- Active discrepancy symptoms (LogicEngine.cpp lines 148-153): state-map
keys (= node ids) that are active and name a discrepancy node. -/
def activeSymptoms (model : rTFPGModel) (st : States) : List String :=
  (nodeIds model).filter
    (fun id => (st id).is_active &&
      (match nodeMapAt model id with
       | some nd => decide (nd.type = NodeType.Discrepancy)
       | none => false))

/-- The candidate failure set, collected over all active symptoms. -/
def candidateFailures (model : rTFPGModel) (st : States) (fuel : ℕ) : List String :=
  (activeSymptoms model st).foldl
    (fun acc sym => backwardPropagate model st fuel sym acc) []

/-- Ranking comparator (LogicEngine.cpp lines 239-244). -/
def cmpDiag (a b : DiagnosisResult) : Bool :=
  if 1 / 1000000 < |a.plausibility - b.plausibility| then
    decide (b.plausibility < a.plausibility)
  else decide (b.robustness < a.robustness)

/-- `std::sort` specifies its output only up to the comparator; it is
modelled as insertion sort with `cmpDiag` ("a comes before b whenever
cmpDiag a b"). -/
def insertDiag (x : DiagnosisResult) :
    List DiagnosisResult → List DiagnosisResult
  | [] => [x]
  | y :: ys => if cmpDiag x y = true then x :: y :: ys else y :: insertDiag x ys

/-- Sort of the ranked diagnoses. -/
def sortDiagnoses (l : List DiagnosisResult) : List DiagnosisResult :=
  l.foldr insertDiag []

/-- REQ-ENG-04 (LogicEngine::findActiveHypotheses): evaluate the buffer
into the node-state map, then backward/forward propagate, score and rank.
Returns the ranked diagnoses together with the engine's post-call state
map (the mutated `m_node_states`). -/
def findActiveHypotheses (model : rTFPGModel) (fuel : ℕ) (st0 : States)
    (samples : List DataSample) : List DiagnosisResult × States :=
  let st := evaluateSignalTrace model st0 samples
  let candidates := candidateFailures model st fuel
  (sortDiagnoses (candidates.filterMap (diagnose model st fuel)), st)

/-! ## Claim C7: plausibility and aggregate robustness of every result -/

/-- Membership through the insertion sort. -/
theorem mem_insertDiag (x r : DiagnosisResult) :
    ∀ l, r ∈ insertDiag x l → r = x ∨ r ∈ l := by
  intro l
  induction l with
  | nil =>
    intro h
    unfold insertDiag at h
    rcases List.mem_cons.mp h with h1 | h1
    · exact Or.inl h1
    · exact absurd h1 (List.not_mem_nil r)
  | cons y ys ih =>
    intro h
    unfold insertDiag at h
    by_cases hc : cmpDiag x y = true
    · rw [if_pos hc] at h
      rcases List.mem_cons.mp h with h1 | h1
      · exact Or.inl h1
      · exact Or.inr h1
    · rw [if_neg hc] at h
      rcases List.mem_cons.mp h with h1 | h1
      · exact Or.inr (h1 ▸ List.mem_cons_self _ _)
      · rcases ih h1 with h2 | h2
        · exact Or.inl h2
        · exact Or.inr (List.mem_cons_of_mem _ h2)

/-- Membership through the sort. -/
theorem mem_sortDiagnoses (r : DiagnosisResult) :
    ∀ l, r ∈ sortDiagnoses l → r ∈ l := by
  intro l
  induction l with
  | nil => intro h; exact absurd h (List.not_mem_nil r)
  | cons x xs ih =>
    intro h
    unfold sortDiagnoses at h
    simp only [List.foldr_cons] at h
    rcases mem_insertDiag x r _ h with h1 | h1
    · exact h1 ▸ List.mem_cons_self _ _
    · exact List.mem_cons_of_mem _ (ih h1)

/-- Every string the forward BFS puts into `expected` names a discrepancy
node of the model (its `node_map` entry exists and is a discrepancy). -/
theorem forwardExpected_sound (model : rTFPGModel) :
    ∀ (fuel : ℕ) (queue visited expected : List String),
      (∀ s ∈ expected, ∃ nd, nodeMapAt model s = some nd ∧
        nd.type = NodeType.Discrepancy) →
      ∀ s ∈ forwardExpected model fuel queue visited expected,
        ∃ nd, nodeMapAt model s = some nd ∧ nd.type = NodeType.Discrepancy := by
  intro fuel
  induction fuel with
  | zero => intro queue visited expected h s hs; exact h s hs
  | succ fuel ih =>
    intro queue visited expected h s hs
    cases queue with
    | nil => exact h s hs
    | cons u rest =>
      unfold forwardExpected at hs
      refine ih _ _ _ ?_ s hs
      -- fold invariant: the expected component only grows by checked nodes
      have main : ∀ (edges : List Edge) (acc : List String × List String × List String),
          (∀ s' ∈ acc.2.2, ∃ nd, nodeMapAt model s' = some nd ∧
            nd.type = NodeType.Discrepancy) →
          ∀ s' ∈ (edges.foldl
            (fun (acc : List String × List String × List String) e =>
              if e.from_ = u ∧ ¬ acc.2.1.contains e.to_ then
                (acc.1 ++ [e.to_], e.to_ :: acc.2.1,
                 match nodeMapAt model e.to_ with
                 | some nd =>
                   if nd.type = NodeType.Discrepancy then acc.2.2 ++ [e.to_] else acc.2.2
                 | none => acc.2.2)
              else acc) acc).2.2,
            ∃ nd, nodeMapAt model s' = some nd ∧ nd.type = NodeType.Discrepancy := by
        intro edges
        induction edges with
        | nil => intro acc hacc s' hs'; exact hacc s' hs'
        | cons e es ihe =>
          intro acc hacc s' hs'
          simp only [List.foldl_cons] at hs'
          refine ihe _ ?_ s' hs'
          by_cases hcase : e.from_ = u ∧ ¬ acc.2.1.contains e.to_
          · rw [if_pos hcase]
            cases hmap : nodeMapAt model e.to_ with
            | none => simpa using hacc
            | some nd =>
              by_cases hd : nd.type = NodeType.Discrepancy
              · simp only [hmap, hd, if_pos]
                intro s'' hs''
                rcases List.mem_append.mp hs'' with h1 | h2
                · exact hacc s'' h1
                · have : s'' = e.to_ := by simpa using h2
                  exact this ▸ ⟨nd, hmap, hd⟩
              · simp only [hmap, hd, if_neg, not_false_eq_true]
                exact hacc
          · rw [if_neg hcase]
            exact hacc
      exact main model.edges (rest, visited, expected) h

/-- Tally characterization when every expected symptom has a state entry:
the count is the number of active expected symptoms and the sum is the sum
of their robustness values. -/
theorem tallyExpected_spec (model : rTFPGModel) (st : States) :
    ∀ (expected : List String), (∀ s ∈ expected, s ∈ nodeIds model) →
      (tallyExpected model st expected).1 =
        (expected.filter (fun s => (st s).is_active)).length ∧
      (tallyExpected model st expected).2.1 =
        (expected.map (fun s => (st s).robustness)).sum := by
  have main : ∀ (expected : List String)
      (acc : ℕ × ℚ × List String × List (String × ℚ)),
      (∀ s ∈ expected, s ∈ nodeIds model) →
      (expected.foldl
        (fun acc s =>
          if (nodeIds model).contains s then
            if (st s).is_active = true then
              (acc.1 + 1, acc.2.1 + (st s).robustness, acc.2.2.1 ++ [s],
               acc.2.2.2 ++ [(s, (st s).trigger_value)])
            else (acc.1, acc.2.1 + (st s).robustness, acc.2.2.1, acc.2.2.2)
          else acc) acc).1 =
        acc.1 + (expected.filter (fun s => (st s).is_active)).length ∧
      (expected.foldl
        (fun acc s =>
          if (nodeIds model).contains s then
            if (st s).is_active = true then
              (acc.1 + 1, acc.2.1 + (st s).robustness, acc.2.2.1 ++ [s],
               acc.2.2.2 ++ [(s, (st s).trigger_value)])
            else (acc.1, acc.2.1 + (st s).robustness, acc.2.2.1, acc.2.2.2)
          else acc) acc).2.1 =
        acc.2.1 + (expected.map (fun s => (st s).robustness)).sum := by
    intro expected
    induction expected with
    | nil => intro acc _; simp
    | cons s rest ih =>
      intro acc hmem
      have hs : (nodeIds model).contains s = true := by
        simpa using hmem s (List.mem_cons_self _ _)
      simp only [List.foldl_cons, hs, if_pos]
      by_cases hact : (st s).is_active = true
      · rw [if_pos hact]
        obtain ⟨ih1, ih2⟩ := ih _ (fun s' hs' => hmem s' (List.mem_cons_of_mem _ hs'))
        constructor
        · rw [ih1]
          simp only [List.filter_cons, hact]
          simp [Nat.add_comm, Nat.add_assoc, Nat.add_left_comm]
        · rw [ih2]
          simp only [List.map_cons, List.sum_cons]
          ring
      · rw [if_neg hact]
        obtain ⟨ih1, ih2⟩ := ih _ (fun s' hs' => hmem s' (List.mem_cons_of_mem _ hs'))
        constructor
        · rw [ih1]
          have hactb : (st s).is_active = false := by
            cases hb : (st s).is_active with
            | false => rfl
            | true => exact absurd hb hact
          simp only [List.filter_cons, hactb]
          simp
        · rw [ih2]
          simp only [List.map_cons, List.sum_cons]
          ring
  intro expected hmem
  have h := main expected (0, 0, [], []) hmem
  unfold tallyExpected
  simpa using h

/-- C7: every returned DiagnosisResult has a non-empty expected set, its
plausibility equals (number of active expected symptoms) / (number of
expected symptoms) and is strictly positive, and its robustness equals
the mean of the expected symptoms' state robustness clamped to [-1, 1]. -/
theorem diagnosis_scores (model : rTFPGModel) (fuel : ℕ) (st0 : States)
    (samples : List DataSample) :
    ∀ r ∈ (findActiveHypotheses model fuel st0 samples).1,
      r.expected_symptoms ≠ [] ∧
      r.plausibility =
        ((r.expected_symptoms.filter
          (fun s => ((findActiveHypotheses model fuel st0 samples).2 s).is_active)).length : ℚ)
          / (r.expected_symptoms.length : ℚ) ∧
      0 < r.plausibility ∧
      r.robustness =
        max (-1) (min 1
          ((r.expected_symptoms.map
            (fun s => ((findActiveHypotheses model fuel st0 samples).2 s).robustness)).sum
            / (r.expected_symptoms.length : ℚ))) := by
  intro r hr
  unfold findActiveHypotheses at hr ⊢
  simp only at hr ⊢
  have hr2 := mem_sortDiagnoses r _ hr
  obtain ⟨fm, _, hdiag⟩ := List.mem_filterMap.mp hr2
  unfold diagnose at hdiag
  cases hmap : nodeMapAt model fm with
  | none => rw [hmap] at hdiag; exact Option.noConfusion hdiag
  | some nd =>
    rw [hmap] at hdiag
    simp only at hdiag
    set st := evaluateSignalTrace model st0 samples with hst
    set expected := forwardExpected model fuel [fm] [fm] [] with hexp
    by_cases hpos : (0:ℚ) <
        (if expected.isEmpty then 0
         else ((tallyExpected model st expected).1 : ℚ) / (expected.length : ℚ))
    · rw [if_pos hpos] at hdiag
      have hre := (Option.some.inj hdiag).symm
      have hexpmem : ∀ s ∈ expected, s ∈ nodeIds model := by
        intro s hs
        obtain ⟨nd', hnd', _⟩ := forwardExpected_sound model fuel [fm] [fm] []
          (fun s' hs' => absurd hs' (List.not_mem_nil s')) s hs
        obtain ⟨hmem', hid'⟩ := nodeMapAt_mem model s nd' hnd'
        exact hid' ▸ List.mem_map_of_mem (·.id) hmem'
      obtain ⟨htally1, htally2⟩ := tallyExpected_spec model st expected hexpmem
      have hnonempty : ¬ expected.isEmpty := by
        intro hemp
        rw [if_pos hemp] at hpos
        exact lt_irrefl 0 hpos
      have hexpne : expected ≠ [] := by
        intro he
        exact hnonempty (he ▸ rfl)
      subst hre
      simp only
      rw [if_neg hnonempty] at hpos
      refine ⟨hexpne, ?_, ?_, ?_⟩
      · rw [if_neg hnonempty, htally1]
      · rw [if_neg hnonempty]
        exact hpos
      · rw [if_neg hnonempty, htally2]
    · rw [if_neg hpos] at hdiag
      exact Option.noConfusion hdiag

/-- Concrete model for the C7 witness: F1 → D1, D1 activated by one
sample with robustness 1/2. -/
def c7Model : rTFPGModel :=
  ⟨[⟨"s1", "S1", "float", "C", 0, 2⟩],
   [⟨"F1", "Pump Burnout", NodeType.FailureMode, none, none, 0⟩,
    ⟨"D1", "High Temp", NodeType.Discrepancy, some GateType.OR,
      some ⟨"s1", ">", 0⟩, 1⟩],
   [⟨"F1", "D1", 0, 100⟩]⟩

/-- Concrete sample buffer for the C7 witness. -/
def c7Samples : List DataSample := [⟨10, "S1", 1, false⟩]

/-- Witness for C7 on the concrete run (the single diagnosis has
plausibility 1/1 > 0 and robustness (1/2)/1 clamped). -/
theorem diagnosis_scores_witness :
    ∃ r ∈ (findActiveHypotheses c7Model 5 initStates c7Samples).1,
      0 < r.plausibility := by
  have hmem : (⟨⟨"F1", "Pump Burnout", NodeType.FailureMode, none, none, 0⟩,
      1, 1/2, ["D1"], ["D1"], [("D1", 1)]⟩ : DiagnosisResult) ∈
      (findActiveHypotheses c7Model 5 initStates c7Samples).1 := by
    with_unfolding_all decide
  exact ⟨_, hmem,
    (diagnosis_scores c7Model 5 initStates c7Samples _ hmem).2.2.1⟩

/-! ## Claim C8: ranking order of the returned diagnoses -/

/-- The ranking comparator is asymmetric. -/
theorem cmpDiag_asymm (a b : DiagnosisResult) (h : cmpDiag a b = true) :
    cmpDiag b a = false := by
  unfold cmpDiag at *
  by_cases hab : 1/1000000 < |a.plausibility - b.plausibility|
  · have hba : 1/1000000 < |b.plausibility - a.plausibility| := by
      rw [abs_sub_comm]; exact hab
    rw [if_pos hab] at h
    rw [if_pos hba]
    simp only [decide_eq_true_eq] at h
    simp only [decide_eq_false_iff_not]
    exact not_lt.mpr (le_of_lt h)
  · have hba : ¬ 1/1000000 < |b.plausibility - a.plausibility| := by
      rw [abs_sub_comm]; exact hab
    rw [if_neg hab] at h
    rw [if_neg hba]
    simp only [decide_eq_true_eq] at h
    simp only [decide_eq_false_iff_not]
    exact not_lt.mpr (le_of_lt h)

/-- The head of an insertion is the inserted element or the old head. -/
theorem insertDiag_head (x : DiagnosisResult) (l : List DiagnosisResult) :
    (insertDiag x l).head? = some x ∨ (insertDiag x l).head? = l.head? := by
  cases l with
  | nil => exact Or.inl rfl
  | cons z zs =>
    unfold insertDiag
    by_cases hc : cmpDiag x z = true
    · rw [if_pos hc]; exact Or.inl rfl
    · rw [if_neg hc]; exact Or.inr rfl

/-- Insertion preserves comparator-sortedness of adjacent pairs. -/
theorem chain'_insertDiag (x : DiagnosisResult) :
    ∀ l, List.Chain' (fun a b => cmpDiag b a = false) l →
      List.Chain' (fun a b => cmpDiag b a = false) (insertDiag x l) := by
  intro l
  induction l with
  | nil => intro _; simp [insertDiag]
  | cons y ys ih =>
    intro h
    unfold insertDiag
    by_cases hc : cmpDiag x y = true
    · rw [if_pos hc]
      exact List.chain'_cons.mpr ⟨cmpDiag_asymm x y hc, h⟩
    · rw [if_neg hc]
      have hxy : cmpDiag x y = false := by
        cases hb : cmpDiag x y with
        | false => rfl
        | true => exact absurd hb hc
      refine List.chain'_cons'.mpr ⟨?_, ih h.tail⟩
      intro z hz
      rcases insertDiag_head x ys with hh | hh
      · rw [hh] at hz
        rw [Option.mem_def] at hz
        exact (Option.some.inj hz) ▸ hxy
      · rw [hh] at hz
        exact (List.chain'_cons'.mp h).1 z hz

/-- The sorted diagnosis list is comparator-sorted on adjacent pairs. -/
theorem sortDiagnoses_chain (l : List DiagnosisResult) :
    List.Chain' (fun a b => cmpDiag b a = false) (sortDiagnoses l) := by
  induction l with
  | nil => simp [sortDiagnoses]
  | cons x xs ih =>
    unfold sortDiagnoses at *
    simp only [List.foldr_cons]
    exact chain'_insertDiag x _ ih

/-- C8 (amended): for every pair of ADJACENT results a, b (a immediately
preceding b) in the list returned by findActiveHypotheses: when their
plausibilities differ by more than 1e-6, a's plausibility is strictly
greater; when they are within the 1e-6 tie threshold, a's robustness is
greater or equal. -/
theorem ranking_adjacent (model : rTFPGModel) (fuel : ℕ) (st0 : States)
    (samples : List DataSample) :
    List.Chain'
      (fun a b =>
        (1 / 1000000 < |a.plausibility - b.plausibility| →
          b.plausibility < a.plausibility) ∧
        (|a.plausibility - b.plausibility| ≤ 1 / 1000000 →
          b.robustness ≤ a.robustness))
      (findActiveHypotheses model fuel st0 samples).1 := by
  refine List.Chain'.imp ?_ (sortDiagnoses_chain _)
  intro a b hab
  unfold cmpDiag at hab
  constructor
  · intro hgap
    have hgap' : 1/1000000 < |b.plausibility - a.plausibility| := by
      rw [abs_sub_comm]; exact hgap
    rw [if_pos hgap'] at hab
    simp only [decide_eq_false_iff_not, not_lt] at hab
    refine lt_of_le_of_ne hab ?_
    intro heq
    rw [heq] at hgap
    simp at hgap
    have : (0:ℚ) < 1/1000000 := by norm_num
    linarith
  · intro htie
    have htie' : ¬ 1/1000000 < |b.plausibility - a.plausibility| := by
      rw [abs_sub_comm]
      exact not_lt.mpr htie
    rw [if_neg htie'] at hab
    simp only [decide_eq_false_iff_not, not_lt] at hab
    exact hab

/-! ## Claim C3: persistent re-replay versus fresh evaluation

The re-replay is NOT observationally equivalent in general: an AND-gate
node blocked at sample i because its parent only became active later (or
later in the node loop of the same sample) can activate during the
re-replay, because the persistent state already records the parent as
active with an early enough activation time.  The counterexample below
exhibits this; the equivalence does hold for models without AND gates,
proved afterwards. -/

/-- Counterexample model: AND-gate discrepancy D (listed before its
OR-gate parent P), both triggered by the same signal; edge P → D. -/
def c3Model : rTFPGModel :=
  ⟨[⟨"s", "S", "float", "C", 0, 1⟩],
   [⟨"D", "D", NodeType.Discrepancy, some GateType.AND, some ⟨"s", ">", 0⟩, 0⟩,
    ⟨"P", "P", NodeType.Discrepancy, some GateType.OR, some ⟨"s", ">", 0⟩, 0⟩],
   [⟨"P", "D", 0, 1000⟩]⟩

/-- First ingested sample (activates P; D is blocked because P is checked
after D in the node loop). -/
def c3Pre : List DataSample := [⟨10, "S", 1, false⟩]

/-- Final buffer after the second ingest (the second sample is negative,
so a fresh replay leaves D inactive). -/
def c3Full : List DataSample := [⟨10, "S", 1, false⟩, ⟨20, "S", -1, false⟩]

/-- C3 counterexample: the second invocation of findActiveHypotheses on
the persistent engine (state carried over from the first invocation)
yields a different node-state map than a single invocation on a freshly
constructed engine over the same final buffer: the persistent run
activates the AND-gate node D, the fresh run leaves it inactive. -/
theorem persistent_replay_counterexample :
    ¬ ((findActiveHypotheses c3Model 5
          (findActiveHypotheses c3Model 5 initStates c3Pre).2 c3Full).2 "D"
        = (findActiveHypotheses c3Model 5 initStates c3Full).2 "D") := by
  with_unfolding_all decide

/-! Pointwise decomposition for AND-free models -/

/-- No node of the model is AND-gated. -/
def NoANDGates (model : rTFPGModel) : Prop :=
  ∀ nd ∈ model.nodes, nd.gate_type ≠ some GateType.AND

instance (model : rTFPGModel) : Decidable (NoANDGates model) := by
  unfold NoANDGates
  infer_instance

/-- The effect of one sample on one node, seen from that node alone.  For
AND-free models the engine step is pointwise, so this classification is
exhaustive. -/
inductive NodeAction where
  | sensor (rob : ℚ) (ts : ℕ) (val : ℚ)
  | fault (ts : ℕ) (val : ℚ)
  | skip
deriving DecidableEq, Repr

/-- Which action a sample applies to a node (state-independent). -/
def actionFor (model : rTFPGModel) (nd : Node) (s : DataSample) : NodeAction :=
  if isSensorReading model s then
    match nd.type, nd.predicate with
    | NodeType.Discrepancy, some pred =>
      if (resolveSignal model pred.signal_ref).1 = s.parameterID then
        NodeAction.sensor
          (calculateRobustness pred s.value
            (resolveSignal model pred.signal_ref).2.1
            (resolveSignal model pred.signal_ref).2.2)
          s.timestamp_ms s.value
      else NodeAction.skip
    | _, _ => NodeAction.skip
  else
    match resolveFaultTarget model s.parameterID with
    | some t =>
      if t = nd.id then NodeAction.fault s.timestamp_ms s.value else NodeAction.skip
    | none => NodeAction.skip

/-- The per-node state machine (the engine step at one slot, for a node
whose gate condition is vacuously true). -/
def nodeStep (st : NodeState) : NodeAction → NodeState
  | NodeAction.sensor rob ts val =>
    if st.is_active = true then st
    else if 0 < rob then ⟨true, rob, ts, val⟩
    else { st with robustness := rob }
  | NodeAction.fault ts val =>
    if st.is_active = false ∧ 0 < val then ⟨true, st.robustness, ts, val⟩ else st
  | NodeAction.skip => st

/-- Run of the per-node machine over a sample list's actions. -/
def nodeRun (st : NodeState) (acts : List NodeAction) : NodeState :=
  acts.foldl nodeStep st

theorem nodeStep_sensor (st : NodeState) (rob : ℚ) (ts : ℕ) (val : ℚ) :
    nodeStep st (NodeAction.sensor rob ts val) =
      if st.is_active = true then st
      else if 0 < rob then ⟨true, rob, ts, val⟩
      else { st with robustness := rob } := rfl

theorem nodeStep_fault (st : NodeState) (ts : ℕ) (val : ℚ) :
    nodeStep st (NodeAction.fault ts val) =
      if st.is_active = false ∧ 0 < val then ⟨true, st.robustness, ts, val⟩
      else st := rfl

theorem nodeStep_skip (st : NodeState) : nodeStep st NodeAction.skip = st := rfl

/-- For a non-AND node, the sensor step at the node's own slot is the
per-node machine step. -/
theorem sensorNodeStep_noand (model : rTFPGModel) (s : DataSample)
    (st : States) (nd : Node) (hg : nd.gate_type ≠ some GateType.AND)
    (hs : isSensorReading model s = true) :
    (sensorNodeStep model s st nd) nd.id =
      nodeStep (st nd.id) (actionFor model nd s) := by
  have hcond : ∀ st' : States, andCondition model nd st' s.timestamp_ms = true := by
    intro st'
    unfold andCondition
    rw [if_neg hg]
  unfold actionFor
  rw [if_pos hs]
  cases ht : nd.type with
  | FailureMode =>
    unfold sensorNodeStep
    rw [ht]
    cases nd.predicate <;> rfl
  | Discrepancy =>
    cases hp : nd.predicate with
    | none =>
      unfold sensorNodeStep
      rw [ht, hp]
      rfl
    | some pred =>
      dsimp only
      by_cases hsrc : (resolveSignal model pred.signal_ref).1 = s.parameterID
      · rw [if_pos hsrc]
        by_cases hact : (st nd.id).is_active = true
        · rw [sensorNodeStep_active model s st nd hact]
          simp only [nodeStep_sensor, nodeStep_fault, nodeStep_skip]
          rw [if_pos hact]
        · have hinact : (st nd.id).is_active = false := by
            cases hb : (st nd.id).is_active with
            | false => rfl
            | true => exact absurd hb hact
          rw [sensorNodeStep_self model s st nd ⟨ht, pred, hp, hsrc⟩ hinact]
          have hrobeq : nodeRobustness model nd s =
              calculateRobustness pred s.value
                (resolveSignal model pred.signal_ref).2.1
                (resolveSignal model pred.signal_ref).2.2 := by
            unfold nodeRobustness
            rw [hp]
          by_cases hpos : 0 < nodeRobustness model nd s
          · rw [if_pos ⟨hpos, hcond st⟩]
            simp only [nodeStep_sensor, nodeStep_fault, nodeStep_skip]
            rw [if_neg (by rw [hinact]; exact Bool.false_ne_true),
              if_pos (hrobeq ▸ hpos), hrobeq]
          · rw [if_neg (fun hc => hpos hc.1)]
            simp only [nodeStep_sensor, nodeStep_fault, nodeStep_skip]
            rw [if_neg (by rw [hinact]; exact Bool.false_ne_true),
              if_neg (by rw [← hrobeq]; exact hpos), hrobeq]
      · rw [if_neg hsrc]
        have hnm : ¬ sensorMatches model nd s := by
          intro hm
          obtain ⟨_, pred', hp', hsrc'⟩ := hm
          rw [hp] at hp'
          exact hsrc ((Option.some.inj hp') ▸ hsrc')
        rw [sensorNodeStep_nomatch model s st nd hnm]
        rfl

/-- For AND-free well-formed models, processing one sample acts pointwise
on every node's slot. -/
theorem processSample_pointwise (model : rTFPGModel)
    (hnodup : (nodeIds model).Nodup) (hnoand : NoANDGates model)
    (st : States) (s : DataSample) (nd : Node) (hmem : nd ∈ model.nodes) :
    (processSample model st s) nd.id = nodeStep (st nd.id) (actionFor model nd s) := by
  by_cases hs : isSensorReading model s = true
  · obtain ⟨k, hlt, hk⟩ := List.mem_iff_getElem.mp hmem
    have hk? : model.nodes[k]? = some nd := by
      rw [List.getElem?_eq_getElem hlt, hk]
    unfold processSample
    rw [if_pos hs]
    obtain ⟨hat, hpre⟩ := foldl_sensor_at model s model.nodes st k nd hk? hnodup
    rw [hat, sensorNodeStep_noand model s _ nd (hnoand nd hmem) hs, hpre]
  · have hs' : isSensorReading model s = false := by
      cases hb : isSensorReading model s with
      | false => rfl
      | true => exact absurd hb hs
    unfold processSample
    rw [if_neg (by rw [hs']; exact Bool.false_ne_true)]
    unfold actionFor
    rw [if_neg (by rw [hs']; exact Bool.false_ne_true)]
    unfold faultStep
    cases hr : resolveFaultTarget model s.parameterID with
    | none => rfl
    | some t =>
      dsimp only
      by_cases hts : t = nd.id
      · rw [if_pos hts, hts]
        by_cases hc : (st nd.id).is_active = false ∧ 0 < s.value
        · rw [if_pos hc]
          simp only [nodeStep_sensor, nodeStep_fault, nodeStep_skip]
          rw [if_pos hc]
          unfold updateState
          simp
        · rw [if_neg hc]
          simp only [nodeStep_sensor, nodeStep_fault, nodeStep_skip]
          rw [if_neg hc]
      · rw [if_neg hts]
        by_cases hc : (st t).is_active = false ∧ 0 < s.value
        · rw [if_pos hc]
          simp only [nodeStep_sensor, nodeStep_fault, nodeStep_skip]
          unfold updateState
          rw [if_neg (fun he => hts he.symm)]
        · rw [if_neg hc]
          rfl

/-- A resolved fault target is always a model node id. -/
theorem resolveFaultTarget_mem (model : rTFPGModel) (pid t : String)
    (h : resolveFaultTarget model pid = some t) : t ∈ nodeIds model := by
  unfold resolveFaultTarget at h
  by_cases hin : (nodeIds model).contains pid = true
  · rw [if_pos (by simpa using hin)] at h
    exact (Option.some.inj h) ▸ (by simpa using hin)
  · rw [if_neg (by simpa using hin)] at h
    cases hf : model.nodes.find? (fun nd => nd.name = pid) with
    | none => rw [hf] at h; exact Option.noConfusion h
    | some nd =>
      rw [hf] at h
      simp only [Option.map_some'] at h
      have hmem := List.mem_of_find?_eq_some hf
      exact (Option.some.inj h) ▸ List.mem_map_of_mem (·.id) hmem

/-- A slot outside the node-id set is never touched by a step. -/
theorem processSample_notmem (model : rTFPGModel) (st : States)
    (s : DataSample) (x : String) (hx : x ∉ nodeIds model) :
    (processSample model st s) x = st x := by
  unfold processSample
  split_ifs with hs
  · refine foldl_sensor_notmem model s model.nodes st x ?_
    exact hx
  · unfold faultStep
    cases hr : resolveFaultTarget model s.parameterID with
    | none => rfl
    | some t =>
      dsimp only
      have hts : x ≠ t := by
        intro he
        exact hx (he ▸ resolveFaultTarget_mem model s.parameterID t hr)
      by_cases hc : (st t).is_active = false ∧ 0 < s.value
      · rw [if_pos hc]
        unfold updateState
        rw [if_neg hts]
      · rw [if_neg hc]

/-- Replay acts pointwise on AND-free well-formed models. -/
theorem replay_pointwise (model : rTFPGModel)
    (hnodup : (nodeIds model).Nodup) (hnoand : NoANDGates model) :
    ∀ (samples : List DataSample) (st : States) (nd : Node), nd ∈ model.nodes →
      (evaluateSignalTrace model st samples) nd.id =
        nodeRun (st nd.id) (samples.map (actionFor model nd)) := by
  intro samples
  induction samples with
  | nil => intro st nd _; rfl
  | cons s rest ih =>
    intro st nd hmem
    unfold evaluateSignalTrace nodeRun at *
    simp only [List.foldl_cons, List.map_cons]
    rw [ih _ nd hmem, processSample_pointwise model hnodup hnoand st s nd hmem]

/-- Replay never touches slots outside the node-id set. -/
theorem replay_notmem (model : rTFPGModel) :
    ∀ (samples : List DataSample) (st : States) (x : String),
      x ∉ nodeIds model → (evaluateSignalTrace model st samples) x = st x := by
  intro samples
  induction samples with
  | nil => intro st x _; rfl
  | cons s rest ih =>
    intro st x hx
    unfold evaluateSignalTrace at *
    simp only [List.foldl_cons]
    rw [ih _ x hx, processSample_notmem model st s x hx]

/-- An active per-node state absorbs every action. -/
theorem nodeRun_active (st : NodeState) (h : st.is_active = true) :
    ∀ acts, nodeRun st acts = st := by
  intro acts
  induction acts with
  | nil => rfl
  | cons a rest ih =>
    unfold nodeRun at *
    simp only [List.foldl_cons]
    have hstep : nodeStep st a = st := by
      cases a with
      | sensor rob ts val => simp only [nodeStep_sensor, nodeStep_fault, nodeStep_skip]; rw [if_pos h]
      | fault ts val =>
        simp only [nodeStep_sensor, nodeStep_fault, nodeStep_skip]
        rw [if_neg (by intro hc; rw [h] at hc; exact Bool.noConfusion hc.1)]
      | skip => rfl
    rw [hstep, ih]

/-- An action that activates an inactive node. -/
def activating : NodeAction → Prop
  | NodeAction.sensor rob _ _ => 0 < rob
  | NodeAction.fault _ val => 0 < val
  | NodeAction.skip => False

instance (a : NodeAction) : Decidable (activating a) := by
  cases a <;> unfold activating <;> infer_instance

/-- If the run of an inactive node ends inactive, no action on the way
was activating. -/
theorem nodeRun_inactive_no_activating (st : NodeState)
    (h0 : st.is_active = false) :
    ∀ acts, (nodeRun st acts).is_active = false →
      ∀ a ∈ acts, ¬ activating a := by
  intro acts
  induction acts generalizing st with
  | nil => intro _ a ha; exact absurd ha (List.not_mem_nil a)
  | cons b rest ih =>
    intro hrun a ha
    unfold nodeRun at hrun
    simp only [List.foldl_cons] at hrun
    by_cases hb : activating b
    · exfalso
      have hstep : (nodeStep st b).is_active = true := by
        cases b with
        | sensor rob ts val =>
          simp only [activating] at hb
          simp only [nodeStep_sensor]
          rw [if_neg (by rw [h0]; exact Bool.false_ne_true), if_pos hb]
        | fault ts val =>
          simp only [activating] at hb
          simp only [nodeStep_fault]
          rw [if_pos ⟨h0, hb⟩]
        | skip => exact absurd hb (by simp [activating])
      have habs := nodeRun_active (nodeStep st b) hstep rest
      unfold nodeRun at habs
      rw [habs, hstep] at hrun
      exact Bool.noConfusion hrun
    · rcases List.mem_cons.mp ha with hab | har
      · exact hab ▸ hb
      · have hstep : (nodeStep st b).is_active = false := by
          cases b with
          | sensor rob ts val =>
            simp only [activating] at hb
            simp only [nodeStep_sensor]
            rw [if_neg (by rw [h0]; exact Bool.false_ne_true),
              if_neg (by exact hb)]
            exact h0
          | fault ts val =>
            simp only [activating] at hb
            simp only [nodeStep_fault]
            rw [if_neg (by intro hc; exact hb hc.2)]
            exact h0
          | skip => exact h0
        exact ih (nodeStep st b) hstep hrun a har

/-- The robustness value after a non-activating run: the last sensor
robustness, or the initial one when no sensor action occurs. -/
def lastRob (r : ℚ) : List NodeAction → ℚ
  | [] => r
  | NodeAction.sensor rob _ _ :: rest => lastRob rob rest
  | NodeAction.fault _ _ :: rest => lastRob r rest
  | NodeAction.skip :: rest => lastRob r rest

/-- A non-activating run of an inactive node only overwrites the
robustness with `lastRob`. -/
theorem nodeRun_inactive_spec (st : NodeState) (h0 : st.is_active = false) :
    ∀ acts, (∀ a ∈ acts, ¬ activating a) →
      nodeRun st acts = { st with robustness := lastRob st.robustness acts } := by
  intro acts
  induction acts generalizing st with
  | nil => intro _; rfl
  | cons b rest ih =>
    intro hno
    unfold nodeRun at *
    simp only [List.foldl_cons]
    have hb := hno b (List.mem_cons_self _ _)
    cases b with
    | sensor rob ts val =>
      have hstep : nodeStep st (NodeAction.sensor rob ts val) =
          { st with robustness := rob } := by
        simp only [activating] at hb
        simp only [nodeStep_sensor]
        rw [if_neg (by rw [h0]; exact Bool.false_ne_true),
          if_neg (by exact hb)]
      rw [hstep]
      have := ih { st with robustness := rob } (by simpa using h0)
        (fun a ha => hno a (List.mem_cons_of_mem _ ha))
      unfold nodeRun at this
      rw [this]
      rfl
    | fault ts val =>
      have hstep : nodeStep st (NodeAction.fault ts val) = st := by
        simp only [activating] at hb
        simp only [nodeStep_fault]
        rw [if_neg (by intro hc; exact hb hc.2)]
      rw [hstep]
      have := ih st h0 (fun a ha => hno a (List.mem_cons_of_mem _ ha))
      unfold nodeRun at this
      rw [this]
      rfl
    | skip =>
      have := ih st h0 (fun a ha => hno a (List.mem_cons_of_mem _ ha))
      unfold nodeRun at this
      rw [nodeStep_skip, this]
      rfl

/-- `lastRob` either ignores its seed or is the identity on it. -/
theorem lastRob_cases :
    ∀ acts, (∀ r1 r2 : ℚ, lastRob r1 acts = lastRob r2 acts) ∨
      (∀ r : ℚ, lastRob r acts = r) := by
  intro acts
  induction acts with
  | nil => exact Or.inr (fun r => rfl)
  | cons b rest ih =>
    cases b with
    | sensor rob ts val =>
      left
      intro r1 r2
      unfold lastRob
      rfl
    | fault ts val =>
      rcases ih with h | h
      · exact Or.inl (fun r1 r2 => h r1 r2)
      · exact Or.inr (fun r => h r)
    | skip =>
      rcases ih with h | h
      · exact Or.inl (fun r1 r2 => h r1 r2)
      · exact Or.inr (fun r => h r)

/-- Idempotence of the per-node run. -/
theorem nodeRun_idem (st : NodeState) (acts : List NodeAction) :
    nodeRun (nodeRun st acts) acts = nodeRun st acts := by
  cases hact : (nodeRun st acts).is_active with
  | true => exact nodeRun_active _ hact acts
  | false =>
    have h0 : st.is_active = false := by
      cases hb : st.is_active with
      | false => rfl
      | true =>
        rw [nodeRun_active st hb acts, hb] at hact
        exact absurd hact (by simp)
    have hno := nodeRun_inactive_no_activating st h0 acts hact
    have h1 := nodeRun_inactive_spec st h0 acts hno
    rw [h1]
    have h2 := nodeRun_inactive_spec { st with robustness := lastRob st.robustness acts }
      (by simpa using h0) acts hno
    rw [h2]
    have h3 : lastRob (lastRob st.robustness acts) acts = lastRob st.robustness acts := by
      rcases lastRob_cases acts with h | h
      · exact h _ _
      · rw [h, h]
    rw [h3]

/-- For AND-free well-formed models, re-replaying the same buffer on its
own result is a no-op. -/
theorem replay_idem (model : rTFPGModel) (hnodup : (nodeIds model).Nodup)
    (hnoand : NoANDGates model) (st : States) (samples : List DataSample) :
    evaluateSignalTrace model (evaluateSignalTrace model st samples) samples =
      evaluateSignalTrace model st samples := by
  funext x
  by_cases hx : x ∈ nodeIds model
  · obtain ⟨nd, hnd, hid⟩ := List.mem_map.mp hx
    subst hid
    rw [replay_pointwise model hnodup hnoand samples _ nd hnd,
      replay_pointwise model hnodup hnoand samples st nd hnd]
    exact nodeRun_idem _ _
  · rw [replay_notmem model samples _ x hx, replay_notmem model samples st x hx]

/-- Persistent engine state after one invocation per listed buffer. -/
def chainEval (model : rTFPGModel) : States → List (List DataSample) → States
  | st, [] => st
  | st, b :: rest => chainEval model (evaluateSignalTrace model st b) rest

/-- The buffers seen by an online driver calling the engine once after
each ingested sample: all non-empty prefixes in order. -/
def prefixesOf (samples : List DataSample) : List (List DataSample) :=
  (List.range samples.length).map (fun k => samples.take (k + 1))

theorem chainEval_cons (model : rTFPGModel) (st : States)
    (b : List DataSample) (rest : List (List DataSample)) :
    chainEval model st (b :: rest) =
      chainEval model (evaluateSignalTrace model st b) rest := rfl

theorem chainEval_append (model : rTFPGModel) :
    ∀ (l1 l2 : List (List DataSample)) (st : States),
      chainEval model st (l1 ++ l2) = chainEval model (chainEval model st l1) l2 := by
  intro l1
  induction l1 with
  | nil => intro l2 st; rfl
  | cons b rest ih =>
    intro l2 st
    simp only [List.cons_append, chainEval_cons]
    exact ih l2 _

/-- C3 (amended): for models with no AND-gate node (and the standard
well-formedness invariant), (a) an invocation of findActiveHypotheses on
an engine whose persistent state already replayed any prefix of the
buffer returns exactly the fresh invocation's diagnosis list and
node-state map, and (b) the persistent state after one invocation per
prefix equals a single fresh replay of the final buffer.  The equivalence
claimed for all models fails on AND gates (see the counterexample). -/
theorem persistent_replay_equiv (model : rTFPGModel)
    (hnodup : (nodeIds model).Nodup) (hnoand : NoANDGates model) (fuel : ℕ) :
    (∀ pre ext : List DataSample,
      findActiveHypotheses model fuel
        (evaluateSignalTrace model initStates pre) (pre ++ ext) =
      findActiveHypotheses model fuel initStates (pre ++ ext)) ∧
    (∀ samples : List DataSample,
      chainEval model initStates (prefixesOf samples) =
        evaluateSignalTrace model initStates samples) := by
  have hkey : ∀ pre ext : List DataSample,
      evaluateSignalTrace model (evaluateSignalTrace model initStates pre)
        (pre ++ ext) = evaluateSignalTrace model initStates (pre ++ ext) := by
    intro pre ext
    unfold evaluateSignalTrace
    rw [List.foldl_append, List.foldl_append]
    have := replay_idem model hnodup hnoand initStates pre
    unfold evaluateSignalTrace at this
    rw [this]
  constructor
  · intro pre ext
    unfold findActiveHypotheses
    rw [hkey pre ext]
  · intro samples
    induction samples using List.reverseRecOn with
    | nil => rfl
    | append_singleton b s ih =>
      have hpref : prefixesOf (b ++ [s]) = prefixesOf b ++ [b ++ [s]] := by
        unfold prefixesOf
        rw [List.length_append, List.length_singleton, List.range_succ,
          List.map_append, List.map_singleton]
        congr 1
        · apply List.map_congr_left
          intro k hk
          have hk' : k + 1 ≤ b.length := List.mem_range.mp hk
          exact List.take_append_of_le_length hk'
        · congr 1
          have : b.length + 1 = (b ++ [s]).length := by
            rw [List.length_append, List.length_singleton]
          rw [this]
          exact List.take_length (b ++ [s])
      rw [hpref, chainEval_append]
      unfold chainEval
      rw [ih]
      exact hkey b [s]

/-- Witness for the amended C3 on a concrete AND-free model: the second
persistent invocation equals the fresh one. -/
theorem persistent_replay_equiv_witness :
    findActiveHypotheses c1Model 5
      (evaluateSignalTrace c1Model initStates [⟨10, "S1", 1, false⟩])
      ([⟨10, "S1", 1, false⟩] ++ [⟨20, "S1", -1, false⟩]) =
    findActiveHypotheses c1Model 5 initStates
      ([⟨10, "S1", 1, false⟩] ++ [⟨20, "S1", -1, false⟩]) :=
  (persistent_replay_equiv c1Model (by decide) (by decide) 5).1
    [⟨10, "S1", 1, false⟩] [⟨20, "S1", -1, false⟩]

/-! ## Refinement Optimizer (RefinementOptimizer.cpp) -/

/-- A labeled trace: the pre-populated ingestor buffer and the expected
activation of the target.  The LogicEngine oracle reads only
`getSamples()` from the ingestor, so the buffer is the trace. -/
structure LabeledTrace where
  buffer : List DataSample
  expected_activation : Bool
deriving DecidableEq, Repr

/-- rTFPGModel::addNode: idempotent on id. -/
def addNode (model : rTFPGModel) (node : Node) : rTFPGModel :=
  if model.nodes.any (fun n => n.id = node.id) then model
  else { model with nodes := model.nodes ++ [node] }

/-- rTFPGModel::removeNode: cascades to every touching edge. -/
def removeNode (model : rTFPGModel) (id : String) : rTFPGModel :=
  { model with
    nodes := model.nodes.filter (fun n => !(decide (n.id = id)))
    edges := model.edges.filter
      (fun e => !(decide (e.from_ = id) || decide (e.to_ = id))) }

/-- rTFPGModel::addEdge. -/
def addEdge (model : rTFPGModel) (edge : Edge) : rTFPGModel :=
  { model with edges := model.edges ++ [edge] }

/-- rTFPGModel::removeEdge: removes every matching from→to pair. -/
def removeEdge (model : rTFPGModel) (from_ to_ : String) : rTFPGModel :=
  { model with
    edges := model.edges.filter
      (fun e => !(decide (e.from_ = from_) && decide (e.to_ = to_))) }

/-- Misclassification count of REQ-REF-01.  The per-trace oracle call
`engine.findActiveHypotheses()` is observed only through
`engine.getNodeStates()`, i.e. the replayed state map; the diagnosis list
it also computes is discarded by calculateDiagnosisError, so only the
replay is modelled here. -/
def misclassCount (model : rTFPGModel) (targetNodeId : String)
    (dataset : List LabeledTrace) : ℕ :=
  (dataset.filter (fun trace =>
    let st := evaluateSignalTrace model initStates trace.buffer
    let is_active : Bool :=
      if (nodeIds model).contains targetNodeId then (st targetNodeId).is_active
      else false
    decide (¬ is_active = trace.expected_activation))).length

/-- REQ-REF-01 (RefinementOptimizer::calculateDiagnosisError). -/
def calculateDiagnosisError (model : rTFPGModel) (targetNodeId : String)
    (dataset : List LabeledTrace) : ℚ :=
  if dataset.isEmpty then 0
  else (misclassCount model targetNodeId dataset : ℚ) / (dataset.length : ℚ)

/-- Backward BFS of REQ-REF-02.  The internal fuel `|edges| + 2` always
suffices: every queue push is preceded by a fresh visited insertion of an
edge source, so at most `|edges| + 1` strings are ever queued. -/
def mcsLoop (model : rTFPGModel) :
    ℕ → List String → List String → List String → List String
  | 0, _, _, mcs => mcs
  | _ + 1, [], _, mcs => mcs
  | fuel + 1, curr :: queue, visited, mcs =>
    let step := model.edges.foldl
      (fun (acc : List String × List String × List String) e =>
        if e.to_ = curr then
          let mcs1 := insertStr e.from_ acc.2.2
          if acc.2.1.contains e.from_ then (acc.1, acc.2.1, mcs1)
          else (acc.1 ++ [e.from_], e.from_ :: acc.2.1, mcs1)
        else acc)
      (queue, visited, mcs)
    mcsLoop model fuel step.1 step.2.1 step.2.2

/-- RefinementOptimizer::getMinimalCutSet (all ancestors of the node). -/
def getMinimalCutSet (model : rTFPGModel) (nodeId : String) : List String :=
  mcsLoop model (model.edges.length + 2) [nodeId] [nodeId] []

/-- Case B of node expansion (RefinementOptimizer.cpp lines 148-173):
try an edge from each predecessor of p to the new node, keeping the first
improving one and reverting the rest. -/
def tryCaseB (p d' : String) (dataset : List LabeledTrace) (cur : ℚ) :
    rTFPGModel → List String → rTFPGModel × Bool
  | model, [] => (model, false)
  | model, v :: rest =>
    let m1 := addEdge model ⟨v, d', 0, 1000⟩
    if calculateDiagnosisError m1 p dataset < cur then (m1, true)
    else tryCaseB p d' dataset cur (removeEdge m1 v d') rest

/-- Node expansion over the candidate set H (RefinementOptimizer.cpp
lines 121-183); `rec` is the recursive refine call of the next level;
falling off the end of the list is the C++ function returning. -/
def step3 (rec : rTFPGModel → String → Option rTFPGModel) (p : String)
    (dataset : List LabeledTrace) (cur : ℚ) :
    rTFPGModel → List Node → Option rTFPGModel
  | model, [] => some model
  | model, d' :: rest =>
    if model.nodes.any (fun n => n.id = d'.id) then
      step3 rec p dataset cur model rest
    else
      let m2 := addEdge (addNode model d') ⟨p, d'.id, 0, 1000⟩
      if calculateDiagnosisError m2 d'.id dataset < cur then rec m2 d'.id
      else
        let m3 := removeEdge m2 p d'.id
        let preds := m3.edges.filterMap
          (fun e => if e.to_ = p then some e.from_ else none)
        let res := tryCaseB p d'.id dataset cur m3 preds
        if res.2 then rec res.1 p
        else step3 rec p dataset cur (removeNode res.1 d'.id) rest

/-- REQ-REF-03 (RefinementOptimizer::refine), fueled by recursion depth;
`none` means the C++ recursion did not return within the given depth.
The step-2 candidate test is evaluated on `addEdge model …` without
threading the mutation, which matches the C++ add-test-revert sequence
because a candidate with an existing edge n→p is always excluded (every
direct predecessor is in the minimal cut set), so the revert's
`removeEdge` removes exactly the tentative edge. -/
def refineFuel :
    ℕ → rTFPGModel → String → List Node → List LabeledTrace → Option rTFPGModel
  | 0, _, _, _, _ => none
  | fuel + 1, model, p, candidateSetH, dataset =>
    let currentDE := calculateDiagnosisError model p dataset
    if currentDE = 0 then some model
    else
      match model.edges.find? (fun e => decide (e.from_ = p) &&
          decide (calculateDiagnosisError model e.to_ dataset ≤ currentDE)) with
      | some e => refineFuel fuel model e.to_ candidateSetH dataset
      | none =>
        let mcs := getMinimalCutSet model p
        match model.nodes.find? (fun nd => decide (nd.type = NodeType.Discrepancy) &&
            decide (¬ nd.id = p) && !(mcs.contains nd.id) &&
            decide (calculateDiagnosisError (addEdge model ⟨nd.id, p, 0, 1000⟩)
              p dataset < currentDE)) with
        | some nd =>
          refineFuel fuel (addEdge model ⟨nd.id, p, 0, 1000⟩) p candidateSetH dataset
        | none =>
          step3 (fun m q => refineFuel fuel m q candidateSetH dataset)
            p dataset currentDE model candidateSetH

/-- Claim C5's "refine(p, H, dataset) terminates", for the fueled
embedding: some recursion depth is enough to make the C++ recursion
return. -/
def RefineTerminates (model : rTFPGModel) (p : String) (H : List Node)
    (dataset : List LabeledTrace) : Prop :=
  ∃ fuel, refineFuel fuel model p H dataset ≠ none

/-! ## Claim C5: termination of refine -/

/-- Counterexample model: one discrepancy node p with a self-loop edge
p→p. -/
def c5Model : rTFPGModel :=
  ⟨[], [⟨"p", "p", NodeType.Discrepancy, some GateType.OR, some ⟨"s", ">", 0⟩, 0⟩],
   [⟨"p", "p", 0, 1000⟩]⟩

/-- One labeled trace with an empty buffer demanding activation: p never
activates, so DE(p) = 1. -/
def c5Dataset : List LabeledTrace := [⟨[], true⟩]

/-- On the self-loop, every refine level takes the successor-descent
branch back to p itself with an unchanged graph, consuming fuel forever. -/
theorem refineFuel_c5_none :
    ∀ n, refineFuel n c5Model "p" [] c5Dataset = none := by
  intro n
  induction n with
  | zero => rfl
  | succ n ih =>
    have hstep : refineFuel (n + 1) c5Model "p" [] c5Dataset =
        refineFuel n c5Model "p" [] c5Dataset := by
      with_unfolding_all rfl
    rw [hstep]
    exact ih

/-- C5 counterexample: refine does not terminate on the self-loop model
(DE(p) = 1 > 0 and the successor-descent test DE(p) ≤ DE(p) recurses on p
with the same graph at every level). -/
theorem refine_terminates_counterexample :
    ¬ RefineTerminates c5Model "p" [] c5Dataset := by
  intro h
  obtain ⟨fuel, hfuel⟩ := h
  exact hfuel (refineFuel_c5_none fuel)

/-- With the same peer (the model mutations of the no-edge case only
add in-edges of p from other nodes), a strict decrease of DE is a strict
decrease of the misclassification count. -/
theorem de_lt_count_lt (m1 m2 : rTFPGModel) (p1 p2 : String)
    (ds : List LabeledTrace) (hne : ds ≠ [])
    (h : calculateDiagnosisError m1 p1 ds < calculateDiagnosisError m2 p2 ds) :
    misclassCount m1 p1 ds < misclassCount m2 p2 ds := by
  have hemp : ds.isEmpty = false := by
    cases ds with
    | nil => exact absurd rfl hne
    | cons a l => rfl
  unfold calculateDiagnosisError at h
  rw [hemp] at h
  simp only [Bool.false_eq_true, if_false] at h
  have hlen : (0:ℚ) < (ds.length : ℚ) := by
    have : 0 < ds.length := by
      cases ds with
      | nil => exact absurd rfl hne
      | cons a l => simp
    exact_mod_cast this
  rw [div_lt_div_iff_of_pos_right hlen] at h
  exact_mod_cast h

/-- Termination of refine for models whose edges all point into p from
other nodes (strong induction on the misclassification count; each
recursion level is a step-2 improvement, which strictly decreases the
count, or returns). -/
theorem refineFuel_inedges_terminates (p : String) (ds : List LabeledTrace) :
    ∀ (n : ℕ) (model : rTFPGModel),
      (∀ e ∈ model.edges, e.to_ = p ∧ e.from_ ≠ p) →
      misclassCount model p ds < n →
      refineFuel (n + 1) model p [] ds ≠ none := by
  intro n
  induction n using Nat.strong_induction_on with
  | _ n ih =>
    intro model hinv hcount
    by_cases hde : calculateDiagnosisError model p ds = 0
    · simp only [refineFuel]
      rw [if_pos hde]
      simp
    · simp only [refineFuel]
      rw [if_neg hde]
      have hfind1 : model.edges.find? (fun e => decide (e.from_ = p) &&
          decide (calculateDiagnosisError model e.to_ ds ≤
            calculateDiagnosisError model p ds)) = none := by
        rw [List.find?_eq_none]
        intro e he
        have hne := (hinv e he).2
        simp [hne]
      rw [hfind1]
      cases hfind2 : model.nodes.find? (fun nd =>
          decide (nd.type = NodeType.Discrepancy) &&
          decide (¬ nd.id = p) && !((getMinimalCutSet model p).contains nd.id) &&
          decide (calculateDiagnosisError (addEdge model ⟨nd.id, p, 0, 1000⟩)
            p ds < calculateDiagnosisError model p ds)) with
      | none =>
        simp only
        intro hfalse
        exact Option.noConfusion hfalse
      | some nd =>
        simp only
        have hpred := List.find?_some hfind2
        simp only [Bool.and_eq_true, decide_eq_true_eq, Bool.not_eq_true',
          decide_eq_false_iff_not] at hpred
        obtain ⟨⟨⟨_, hnp⟩, _⟩, hlt⟩ := hpred
        have hdsne : ds ≠ [] := by
          intro he
          apply hde
          unfold calculateDiagnosisError
          rw [he]
          rfl
        have hcnt : misclassCount (addEdge model ⟨nd.id, p, 0, 1000⟩) p ds <
            misclassCount model p ds :=
          de_lt_count_lt _ _ _ _ ds hdsne hlt
        have hpos : 1 ≤ misclassCount model p ds := by
          by_contra hzero
          have h0 : misclassCount model p ds = 0 := by omega
          apply hde
          unfold calculateDiagnosisError
          cases hd : ds.isEmpty
          · rw [h0]
            simp
          · simp [hd]
        have hn2 : 2 ≤ n := by omega
        have hn1 : n = (n - 1) + 1 := by omega
        rw [hn1]
        apply ih (n - 1) (by omega)
        · intro e he
          unfold addEdge at he
          simp only [List.mem_append, List.mem_singleton] at he
          rcases he with he | he
          · exact hinv e he
          · subst he
            exact ⟨rfl, hnp⟩
        · omega

/-- C5 (amended): refine terminates — within |dataset| + 2 recursion
levels — whenever the graph has no edges and the candidate set H is
empty; in general refine need not terminate (see the counterexample). -/
theorem refine_terminates_no_edges (model : rTFPGModel) (p : String)
    (dataset : List LabeledTrace) (hedges : model.edges = []) :
    refineFuel (dataset.length + 2) model p [] dataset ≠ none := by
  have hinv : ∀ e ∈ model.edges, e.to_ = p ∧ e.from_ ≠ p := by
    rw [hedges]
    intro e he
    exact absurd he (List.not_mem_nil e)
  have hcount : misclassCount model p dataset < dataset.length + 1 := by
    have hle : misclassCount model p dataset ≤ dataset.length := by
      unfold misclassCount
      exact List.length_filter_le _ _
    omega
  exact refineFuel_inedges_terminates p dataset (dataset.length + 1) model hinv hcount

/-- Witness for the amended C5 on a concrete edgeless model: refine
returns within 3 levels. -/
theorem refine_terminates_no_edges_witness :
    refineFuel 3
      ⟨[], [⟨"p", "p", NodeType.Discrepancy, some GateType.OR, some ⟨"s", ">", 0⟩, 0⟩], []⟩
      "p" [] [⟨[], true⟩] ≠ none :=
  refine_terminates_no_edges
    ⟨[], [⟨"p", "p", NodeType.Discrepancy, some GateType.OR, some ⟨"s", ">", 0⟩, 0⟩], []⟩
    "p" [⟨[], true⟩] rfl

end TFPG
